import Mathlib

set_option allowUnsafeReducibility true
attribute [local semireducible] Rat.sub Rat.add Rat.mul Rat.div Rat.neg Rat.inv Rat.blt

/-!
# Verification of the TSHD discrete-event simulation

Shallow embedding of the TSHD dredging simulator:

* `des_framework.py` — event type, event records, the `Simulation` engine
  with its priority queue and bounded `run` loop;
* `segments.py` — the `SegmentManager` channel model;
* `tshd.py` — the `TSHD` vessel entity with its eight event handlers;
* `base-app.py` — the campaign driver `run_simulation_streamlit`.

Times, durations and volumes are embedded as rationals.  `np.random.normal
(mean, stdev)` is embedded as `mean + stdev * z` where `z` is drawn from an
explicit stream of standard-normal values, so theorems quantify over all
possible draws.  Python's `heapq` priority queue (ordered by `Event.__lt__`,
i.e. by time only) is embedded as a time-sorted list: `heappush` inserts
keeping the list sorted by time and `heappop` takes the head, so the popped
event always has minimal time, exactly as `heapq` guarantees.
-/

namespace TSHDSim

/-- `EventType` from `des_framework.py`. -/
inductive EventType where
  | DREDGING_START
  | DREDGING_COMPLETE
  | MOVE_TO_DA_START
  | MOVE_TO_DA_COMPLETE
  | DUMPING_START
  | DUMPING_COMPLETE
  | MOVE_BACK_START
  | MOVE_BACK_COMPLETE
  deriving DecidableEq, Repr

/-- The `data` dict attached to an `Event`.  The handlers in `tshd.py` only
ever read these five keys, always via `dict.get` with a default, so the dict
is embedded as a record of optional fields (`none` = key absent). -/
structure EventData where
  actual_dredging_time : Option ℚ := none
  allocated_volume_m3 : Option ℚ := none
  distance_to_da_nm : Option ℚ := none
  segment_index : Option ℕ := none
  actual_travel_time : Option ℚ := none
  actual_dumping_time : Option ℚ := none
  deriving DecidableEq, Repr

/-- `Event` from `des_framework.py`. -/
structure Event where
  time : ℚ
  event_type : EventType
  entity_id : String
  data : EventData := {}
  deriving DecidableEq, Repr

/-- `heapq.heappush` on the time-ordered queue: insert keeping the list
sorted by `time` (ties keep arrival order). -/
def insertSorted (e : Event) : List Event → List Event
  | [] => [e]
  | x :: xs => if x.time ≤ e.time then x :: insertSorted e xs else e :: x :: xs

/-- Push a batch of scheduled events (in scheduling order) into the queue. -/
def pushAll (q : List Event) (new : List Event) : List Event :=
  new.foldl (fun acc e => insertSorted e acc) q

/-- The `statistics` dict of `Simulation`. -/
structure Stats where
  total_dredging_time : ℚ := 0
  total_moving_time : ℚ := 0
  total_dumping_time : ℚ := 0
  dredging_cycles : ℕ := 0
  events_processed : ℕ := 0
  deriving DecidableEq, Repr

/-- What an entity's `handle_event` may do to the simulation: replace its own
state, replace the shared mutable context (segment manager, RNG stream),
schedule new events, and add to the accumulated statistics.  This is exactly
the footprint of the eight `TSHD` handlers. -/
structure HandlerOut (ε κ : Type) where
  entity : ε
  shared : κ
  newEvents : List Event := []
  dDredging : ℚ := 0
  dMoving : ℚ := 0
  dDumping : ℚ := 0
  dCycles : ℕ := 0

/-- An entity's `handle_event(event, sim)` method: it receives the entity's
current state, the shared context and the simulation clock. -/
def Handler (ε κ : Type) := ε → κ → ℚ → Event → HandlerOut ε κ

/-- The mutable state of a `Simulation` instance (`des_framework.py`),
parametrised by the entity type `ε` and the shared context `κ`. -/
structure SimState (ε κ : Type) where
  clock : ℚ := 0
  eventQueue : List Event := []
  entities : List (String × ε) := []
  stats : Stats := {}
  running : Bool := false
  shared : κ
  deriving DecidableEq, Repr

/-- `dict` lookup `sim.entities[eid]`. -/
def lookupEntity {ε κ : Type} (s : SimState ε κ) (eid : String) : Option ε :=
  (s.entities.find? (fun p => p.1 = eid)).map Prod.snd

/-- Store back the mutated entity (Python mutates the dict value in place). -/
def updateEntity {ε : Type} (eid : String) (x : ε) :
    List (String × ε) → List (String × ε) :=
  List.map (fun p => if p.1 = eid then (p.1, x) else p)

/-- `Simulation.schedule_event`. -/
def scheduleEvent {ε κ : Type} (s : SimState ε κ) (e : Event) : SimState ε κ :=
  { s with eventQueue := insertSorted e s.eventQueue }

/-- One processed event in the body of `Simulation.run` (the part of the loop
after the horizon check): set the clock to the event's time, count it, and
dispatch to the owning entity if it is registered; an unknown owner is
logged and skipped. -/
def dispatch {ε κ : Type} (h : Handler ε κ) (s : SimState ε κ) (e : Event) :
    SimState ε κ :=
  match lookupEntity s e.entity_id with
  | none =>
      { s with
        clock := e.time
        stats := { s.stats with
          events_processed := s.stats.events_processed + 1 } }
  | some ent =>
      let out := h ent s.shared e.time e
      { s with
        clock := e.time
        entities := updateEntity e.entity_id out.entity s.entities
        shared := out.shared
        eventQueue := pushAll s.eventQueue out.newEvents
        stats :=
          { s.stats with
            events_processed := s.stats.events_processed + 1
            total_dredging_time := s.stats.total_dredging_time + out.dDredging
            total_moving_time := s.stats.total_moving_time + out.dMoving
            total_dumping_time := s.stats.total_dumping_time + out.dDumping
            dredging_cycles := s.stats.dredging_cycles + out.dCycles } }

/-- The events scheduled while dispatching `e` (empty when the owner is
unknown). -/
def dispatchNew {ε κ : Type} (h : Handler ε κ) (s : SimState ε κ) (e : Event) :
    List Event :=
  match lookupEntity s e.entity_id with
  | none => []
  | some ent => (h ent s.shared e.time e).newEvents

/-- Python truthiness of the `end_time` argument: `None` and `0.0` are falsy
(`if end_time and event.time > end_time:`). -/
def truthy : Option ℚ → Bool
  | none => false
  | some t => decide (t ≠ 0)

/-- The `while` loop of `Simulation.run`, with explicit fuel.  Returns the
final state and `true` when the loop exited (queue empty or horizon cap),
or the current state and `false` when the fuel ran out (the Python loop is
still running).  Both loop exits also perform the trailing
`self.running = False`. -/
def runAux {ε κ : Type} (h : Handler ε κ) :
    ℕ → Option ℚ → SimState ε κ → SimState ε κ × Bool
  | 0, _, s => (s, false)
  | Nat.succ n, endTime, s =>
      match s.eventQueue, s.running with
      | e :: rest, true =>
          if truthy endTime ∧ endTime.getD 0 < e.time then
            ({ s with
                eventQueue := insertSorted e rest
                clock := endTime.getD 0
                running := false }, true)
          else
            runAux h n endTime (dispatch h { s with eventQueue := rest } e)
      | _, _ => ({ s with running := false }, true)

/-- `Simulation.run(end_time)`: set `self.running = True`, then the loop. -/
def runSim {ε κ : Type} (h : Handler ε κ) (fuel : ℕ) (endTime : Option ℚ)
    (s : SimState ε κ) : SimState ε κ × Bool :=
  runAux h fuel endTime { s with running := true }

/-! ## `segments.py` — the segmented channel model -/

/-- `SegmentAllocation` from `segments.py`. -/
structure SegmentAllocation where
  segment_index : ℕ
  volume_m3 : ℚ
  distance_to_da_nm : ℚ
  deriving DecidableEq, Repr

/-- `SegmentManager` state: the constructor stores
`[max(0.0, float(v)) for v in segment_volumes_m3]`, so we keep the clamped
list (`mkSegmentManager` below performs the clamping). -/
structure SegmentManager where
  segment_length_nm : ℚ
  remaining_m3 : List ℚ
  deriving DecidableEq, Repr

/-- `SegmentManager.__init__` (the `segment_length_nm > 0` validation is a
raise; callers in this repository always pass positive lengths). -/
def mkSegmentManager (segment_volumes_m3 : List ℚ) (segment_length_nm : ℚ) :
    SegmentManager :=
  { segment_length_nm := segment_length_nm
    remaining_m3 := segment_volumes_m3.map (fun v => max 0 v) }

/-- `SegmentManager.total_remaining`. -/
def SegmentManager.total_remaining (m : SegmentManager) : ℚ :=
  m.remaining_m3.sum

/-- Index (0-based) of the first entry `> 0`. -/
def firstPosIdx : List ℚ → Option ℕ
  | [] => none
  | v :: vs => if 0 < v then some 0 else (firstPosIdx vs).map (· + 1)

/-- `SegmentManager.next_segment_with_work`: 1-based index of the first
segment with strictly positive remaining volume. -/
def SegmentManager.next_segment_with_work (m : SegmentManager) : Option ℕ :=
  (firstPosIdx m.remaining_m3).map (· + 1)

/-- `SegmentManager.allocate` (Python mutates `remaining_m3` in place; here
the updated manager is returned alongside the allocation). -/
def SegmentManager.allocate (m : SegmentManager) (requested_m3 : ℚ) :
    Option (SegmentAllocation × SegmentManager) :=
  if requested_m3 ≤ 0 then none
  else
    match m.next_segment_with_work with
    | none => none
    | some seg_idx =>
        let remaining := m.remaining_m3.getD (seg_idx - 1) 0
        let take := min requested_m3 remaining
        let m' := { m with remaining_m3 := m.remaining_m3.set (seg_idx - 1) (remaining - take) }
        let distance_nm := (seg_idx - 1 : ℚ) * m.segment_length_nm
        some ({ segment_index := seg_idx, volume_m3 := take,
                distance_to_da_nm := distance_nm }, m')

/-! ## `tshd.py` — the TSHD vessel entity -/

/-- `TSHDState` from `tshd.py`. -/
inductive TSHDState where
  | IDLE
  | DREDGING
  | MOVING_TO_DA
  | DUMPING
  | MOVING_BACK
  deriving DecidableEq, Repr

/-- The `task` tag of the duration samples appended to `event_log`. -/
inductive TaskKind where
  | dredging
  | moving_to_da
  | dumping
  | moving_back
  deriving DecidableEq, Repr

/-- An entry of `TSHD.event_log`: either a plain message dict
(`time`/`event`/`state` keys) or a duration-sample dict (`time`/`task`/
`duration_h`/optional `volume_m3`, `distance_nm`, `segment`/`state`). -/
inductive LogEntry where
  | msg (time : ℚ) (text : String) (state : TSHDState)
  | sample (time : ℚ) (task : TaskKind) (duration_h : ℚ)
      (volume_m3 : Option ℚ) (distance_nm : Option ℚ) (segment : Option ℕ)
      (state : TSHDState)
  deriving DecidableEq, Repr

/-- `TSHDConfig` with its default values. -/
structure TSHDConfig where
  dredging_time : ℚ := 2
  dredging_stdev_pct : ℚ := 10
  speed_to_da : ℚ := 10
  distance_to_da : ℚ := 5
  moving_stdev_pct : ℚ := 15
  dumping_time : ℚ := 1/2
  dumping_stdev_pct : ℚ := 10
  speed_back : ℚ := 10
  distance_back : ℚ := 5
  hopper_capacity : ℚ := 5000
  deriving DecidableEq, Repr

/-- The mutable fields of a `TSHD` instance. -/
structure TSHD where
  entity_id : String
  config : TSHDConfig := {}
  state : TSHDState := TSHDState.IDLE
  hopper_level : ℚ := 0
  total_dredged : ℚ := 0
  cycle_count : ℕ := 0
  event_log : List LogEntry := []
  state_history : List (ℚ × TSHDState) := []
  current_segment_index : Option ℕ := none
  deriving DecidableEq, Repr

/-- The shared mutable context the handlers reach through `sim`: the optional
`sim.segment_manager` attribute and the global NumPy RNG, embedded as a
stream of standard-normal draws. -/
structure Shared where
  segManager : Option SegmentManager := none
  rng : List ℚ := []
  deriving DecidableEq, Repr

/-- `np.random.normal(mean, stdev)`: consume one standard-normal draw `z`
from the stream and return `mean + stdev * z` (an exhausted model stream
yields the mean). -/
def Shared.draw (sh : Shared) (mean stdev : ℚ) : ℚ × Shared :=
  match sh.rng with
  | [] => (mean, sh)
  | z :: zs => (mean + stdev * z, { sh with rng := zs })

namespace TSHD

/-- `TSHD._start_dredging`. -/
def startDredging (v : TSHD) (sh : Shared) (clock : ℚ) (_e : Event) :
    HandlerOut TSHD Shared :=
  let v := { v with state := TSHDState.DREDGING }
  let v := { v with
    event_log := v.event_log ++ [LogEntry.msg clock "Starting dredging" v.state]
    state_history := v.state_history ++ [(clock, v.state)] }
  -- If segmentation is enabled, allocate volume from the next segment.
  let alloc? : Option (Option (SegmentAllocation × SegmentManager)) :=
    sh.segManager.map (fun m => m.allocate v.config.hopper_capacity)
  match alloc? with
  | some none =>
      -- No work left: go idle, schedule nothing.
      let v := { v with state := TSHDState.IDLE }
      { entity := { v with
          event_log := v.event_log ++
            [LogEntry.msg clock "No segment work remaining (idle)" v.state] }
        shared := sh }
  | some (some (alloc, m')) =>
      let sh := { sh with segManager := some m' }
      if alloc.volume_m3 ≤ 0 then
        let v := { v with state := TSHDState.IDLE }
        { entity := { v with
            event_log := v.event_log ++
              [LogEntry.msg clock "No segment work remaining (idle)" v.state] }
          shared := sh }
      else
        mkDredgingSample v sh clock alloc.volume_m3 alloc.distance_to_da_nm
          (some alloc.segment_index)
  | none =>
      mkDredgingSample v sh clock v.config.hopper_capacity
        v.config.distance_to_da none
where
  /-- Common tail of `_start_dredging`: sample the dredging duration, record
  it, and schedule `DREDGING_COMPLETE`. -/
  mkDredgingSample (v : TSHD) (sh : Shared) (clock : ℚ)
      (allocated_volume_m3 distance_to_da_nm : ℚ) (seg_idx : Option ℕ) :
      HandlerOut TSHD Shared :=
    let v := { v with current_segment_index :=
      match seg_idx with | some i => some i | none => v.current_segment_index }
    let mean_time := v.config.dredging_time *
      (allocated_volume_m3 / v.config.hopper_capacity)
    let stdev := mean_time * (v.config.dredging_stdev_pct / 100)
    let (raw, sh) := sh.draw mean_time stdev
    let actual_dredging_time := max (1/10) raw
    let v := { v with event_log := v.event_log ++
      [LogEntry.sample clock TaskKind.dredging actual_dredging_time
        (some allocated_volume_m3) none seg_idx v.state] }
    { entity := v
      shared := sh
      newEvents := [
        { time := clock + actual_dredging_time
          event_type := EventType.DREDGING_COMPLETE
          entity_id := v.entity_id
          data := { actual_dredging_time := some actual_dredging_time
                    allocated_volume_m3 := some allocated_volume_m3
                    distance_to_da_nm := some distance_to_da_nm
                    segment_index := seg_idx } }] }

/-- `TSHD._complete_dredging`. -/
def completeDredging (v : TSHD) (sh : Shared) (clock : ℚ) (e : Event) :
    HandlerOut TSHD Shared :=
  let loaded_m3 := e.data.allocated_volume_m3.getD v.config.hopper_capacity
  let v := { v with hopper_level := loaded_m3
                    total_dredged := v.total_dredged + loaded_m3 }
  let actual_dredging_time :=
    e.data.actual_dredging_time.getD v.config.dredging_time
  let v := { v with event_log := v.event_log ++
    [LogEntry.msg clock "Dredging complete" v.state] }
  let v := { v with state := TSHDState.MOVING_TO_DA }
  let distance_to_da_nm := e.data.distance_to_da_nm.getD v.config.distance_to_da
  let mean_travel_time := distance_to_da_nm / v.config.speed_to_da
  let stdev := mean_travel_time * (v.config.moving_stdev_pct / 100)
  let (raw, sh) := sh.draw mean_travel_time stdev
  let travel_time := max (1/100) raw
  let v := { v with event_log := v.event_log ++
    [LogEntry.sample clock TaskKind.moving_to_da travel_time
      none (some distance_to_da_nm) e.data.segment_index v.state] }
  { entity := v
    shared := sh
    dDredging := actual_dredging_time
    newEvents := [
      { time := clock
        event_type := EventType.MOVE_TO_DA_START
        entity_id := v.entity_id },
      { time := clock + travel_time
        event_type := EventType.MOVE_TO_DA_COMPLETE
        entity_id := v.entity_id
        data := { actual_travel_time := some travel_time
                  distance_to_da_nm := some distance_to_da_nm } }] }

/-- `TSHD._start_move_to_da`. -/
def startMoveToDa (v : TSHD) (sh : Shared) (clock : ℚ) (_e : Event) :
    HandlerOut TSHD Shared :=
  let v := { v with state := TSHDState.MOVING_TO_DA }
  { entity := { v with
      event_log := v.event_log ++
        [LogEntry.msg clock "Moving to dumping area" v.state]
      state_history := v.state_history ++ [(clock, v.state)] }
    shared := sh }

/-- `TSHD._complete_move_to_da`.  Note: the scheduled `DUMPING_COMPLETE`
event carries only `actual_dumping_time` in its data. -/
def completeMoveToDa (v : TSHD) (sh : Shared) (clock : ℚ) (e : Event) :
    HandlerOut TSHD Shared :=
  let distance_to_da_nm := e.data.distance_to_da_nm.getD v.config.distance_to_da
  let travel_time :=
    e.data.actual_travel_time.getD (distance_to_da_nm / v.config.speed_to_da)
  let v := { v with event_log := v.event_log ++
    [LogEntry.msg clock "Arrived at dumping area" v.state] }
  let v := { v with state := TSHDState.DUMPING }
  let v := { v with state_history := v.state_history ++ [(clock, v.state)] }
  let mean_time := v.config.dumping_time
  let stdev := mean_time * (v.config.dumping_stdev_pct / 100)
  let (raw, sh) := sh.draw mean_time stdev
  let actual_dumping_time := max (1/20) raw
  let v := { v with event_log := v.event_log ++
    [LogEntry.sample clock TaskKind.dumping actual_dumping_time
      none none none v.state] }
  { entity := v
    shared := sh
    dMoving := travel_time
    newEvents := [
      { time := clock
        event_type := EventType.DUMPING_START
        entity_id := v.entity_id },
      { time := clock + actual_dumping_time
        event_type := EventType.DUMPING_COMPLETE
        entity_id := v.entity_id
        data := { actual_dumping_time := some actual_dumping_time } }] }

/-- `TSHD._start_dumping`. -/
def startDumping (v : TSHD) (sh : Shared) (clock : ℚ) (_e : Event) :
    HandlerOut TSHD Shared :=
  let v := { v with state := TSHDState.DUMPING }
  { entity := { v with
      event_log := v.event_log ++
        [LogEntry.msg clock "Starting dumping" v.state] }
    shared := sh }

/-- `TSHD._complete_dumping`.  The return distance is read from the event's
data with default `config.distance_back`. -/
def completeDumping (v : TSHD) (sh : Shared) (clock : ℚ) (e : Event) :
    HandlerOut TSHD Shared :=
  let v := { v with hopper_level := 0 }
  let actual_dumping_time :=
    e.data.actual_dumping_time.getD v.config.dumping_time
  let v := { v with cycle_count := v.cycle_count + 1 }
  let v := { v with event_log := v.event_log ++
    [LogEntry.msg clock "Dumping complete" v.state] }
  let v := { v with state := TSHDState.MOVING_BACK }
  let v := { v with state_history := v.state_history ++ [(clock, v.state)] }
  let distance_to_da_nm := e.data.distance_to_da_nm.getD v.config.distance_back
  let mean_travel_time := distance_to_da_nm / v.config.speed_back
  let stdev := mean_travel_time * (v.config.moving_stdev_pct / 100)
  let (raw, sh) := sh.draw mean_travel_time stdev
  let travel_time := max (1/100) raw
  let v := { v with event_log := v.event_log ++
    [LogEntry.sample clock TaskKind.moving_back travel_time
      none (some distance_to_da_nm) none v.state] }
  { entity := v
    shared := sh
    dDumping := actual_dumping_time
    dCycles := 1
    newEvents := [
      { time := clock
        event_type := EventType.MOVE_BACK_START
        entity_id := v.entity_id },
      { time := clock + travel_time
        event_type := EventType.MOVE_BACK_COMPLETE
        entity_id := v.entity_id
        data := { actual_travel_time := some travel_time
                  distance_to_da_nm := some distance_to_da_nm } }] }

/-- `TSHD._start_move_back`. -/
def startMoveBack (v : TSHD) (sh : Shared) (clock : ℚ) (_e : Event) :
    HandlerOut TSHD Shared :=
  let v := { v with state := TSHDState.MOVING_BACK }
  { entity := { v with
      event_log := v.event_log ++
        [LogEntry.msg clock "Moving back to dredging area" v.state] }
    shared := sh }

/-- `TSHD._complete_move_back`. -/
def completeMoveBack (v : TSHD) (sh : Shared) (clock : ℚ) (e : Event) :
    HandlerOut TSHD Shared :=
  let travel_time := e.data.actual_travel_time.getD
    (v.config.distance_back / v.config.speed_back)
  let v := { v with event_log := v.event_log ++
    [LogEntry.msg clock "Arrived back at dredging area" v.state] }
  let v := { v with state := TSHDState.DREDGING }
  let v := { v with state_history := v.state_history ++ [(clock, v.state)] }
  { entity := v
    shared := sh
    dMoving := travel_time
    newEvents := [
      { time := clock
        event_type := EventType.DREDGING_START
        entity_id := v.entity_id }] }

/-- `TSHD.handle_event`: dispatch on the event type. -/
def handleEvent (v : TSHD) (sh : Shared) (clock : ℚ) (e : Event) :
    HandlerOut TSHD Shared :=
  match e.event_type with
  | EventType.DREDGING_START => startDredging v sh clock e
  | EventType.DREDGING_COMPLETE => completeDredging v sh clock e
  | EventType.MOVE_TO_DA_START => startMoveToDa v sh clock e
  | EventType.MOVE_TO_DA_COMPLETE => completeMoveToDa v sh clock e
  | EventType.DUMPING_START => startDumping v sh clock e
  | EventType.DUMPING_COMPLETE => completeDumping v sh clock e
  | EventType.MOVE_BACK_START => startMoveBack v sh clock e
  | EventType.MOVE_BACK_COMPLETE => completeMoveBack v sh clock e

/-- `TSHD.start_work`: schedule the initial `DREDGING_START` at time 0. -/
def startWork (v : TSHD) {κ : Type} (s : SimState TSHD κ) : SimState TSHD κ :=
  scheduleEvent s
    { time := 0, event_type := EventType.DREDGING_START, entity_id := v.entity_id }

end TSHD

/-- The TSHD fleet handler used by `sim.entities[...].handle_event`. -/
def tshdHandler : Handler TSHD Shared := TSHD.handleEvent

/-! ## `base-app.py` — the campaign driver `run_simulation_streamlit` -/

/-- The mean full-cycle time of one vessel, as computed in
`run_simulation_streamlit`: dredge + outbound transit + dump + return
transit, from the vessel's own mean parameters. -/
def meanCycle (cfg : TSHDConfig) : ℚ :=
  cfg.dredging_time + cfg.distance_to_da / cfg.speed_to_da +
    cfg.dumping_time + cfg.distance_back / cfg.speed_back

/-- `min(cycle_times)` over a list (`1` for an empty list, mirroring
`float(min(cycle_times)) if cycle_times else 1.0`). -/
def minOrOne : List ℚ → ℚ
  | [] => 1
  | c :: cs => cs.foldl min c

/-- `step_h = max(0.25, float(min(cycle_times)) if cycle_times else 1.0)`. -/
def stepH (fleet : List (String × TSHDConfig)) : ℚ :=
  max (1/4) (minOrOne (fleet.map (fun p => meanCycle p.2)))

/-- A fresh `TSHD(type_label, cfg)`. -/
def initVessel (label : String) (cfg : TSHDConfig) : TSHD :=
  { entity_id := label, config := cfg }

/-- The fleet setup of `run_simulation_streamlit`: a fresh `Simulation` (no
`segment_manager` attribute), one registered vessel per fleet row, each
started with `start_work`. -/
def initFleetSim (fleet : List (String × TSHDConfig)) (rng : List ℚ) :
    SimState TSHD Shared :=
  fleet.foldl
    (fun s p =>
      let d := initVessel p.1 p.2
      TSHD.startWork d { s with entities := s.entities ++ [(p.1, d)] })
    { shared := { segManager := none, rng := rng } }

/-- `sum(d.total_dredged for d in dredgers)`. -/
def fleetTotalDredged {κ : Type} (s : SimState TSHD κ) : ℚ :=
  (s.entities.map (fun p => p.2.total_dredged)).sum

/-! ### A termination measure for the bounded run loop

Every duration sampled by a TSHD handler is clamped to at least `1/100`
hours, so along a vessel's event chain the *complete* events move strictly
forward in time by at least `1/100`, while the zero-delay `*_START` events
spawn nothing further.  Counting `1/100`-quanta left below the horizon and
ranking start events below the completion events gives a natural-number
measure on events below the horizon that strictly decreases (summed as
powers of 3 over the queue) at every processed event. -/

/-- Quanta of `1/100` time-units remaining from `t` up to the horizon `H`
(at least 1 whenever `t ≤ H`, and 0 well past the horizon). -/
def quanta (H t : ℚ) : ℕ := (Int.ceil (100 * (H - t)) + 1).toNat

/-- Rank of an event type: `*_START` events (which spawn either nothing or a
same-time completion pair) rank below the four events that advance time. -/
def evRank : EventType → ℕ
  | EventType.DREDGING_START => 1
  | EventType.MOVE_TO_DA_START => 1
  | EventType.DUMPING_START => 1
  | EventType.MOVE_BACK_START => 1
  | EventType.DREDGING_COMPLETE => 2
  | EventType.MOVE_TO_DA_COMPLETE => 2
  | EventType.DUMPING_COMPLETE => 2
  | EventType.MOVE_BACK_COMPLETE => 2

/-- Measure of a single event relative to horizon `H`. -/
def evMeasure (H : ℚ) (e : Event) : ℕ :=
  3 ^ (2 * quanta H e.time + evRank e.event_type)

/-- Measure of the whole queue relative to horizon `H`: an upper bound on
the number of events `Simulation.run(H)` can still process. -/
def queueMeasure (H : ℚ) (q : List Event) : ℕ :=
  (q.map (evMeasure H)).sum

/-- The `while True:` driver loop of `run_simulation_streamlit`: run the
engine up to the current horizon, stop once the fleet total reaches the
target volume or the clock reaches the one-year cap `24 * 365`, otherwise
extend the horizon by `step_h` and go round again.  `rounds` is explicit
fuel (`none` = the Python loop has not terminated within that many rounds);
each round gives the engine `queueMeasure + 1` fuel, which the termination
theorem below shows suffices for the no-segment-manager fleet simulation. -/
def driverAux (target step : ℚ) :
    ℕ → ℚ → SimState TSHD Shared → Option (SimState TSHD Shared)
  | 0, _, _ => none
  | Nat.succ n, curEnd, s =>
      let s' := (runSim tshdHandler (queueMeasure curEnd s.eventQueue + 1)
        (some curEnd) s).1
      if target ≤ fleetTotalDredged s' ∨ (24 * 365 : ℚ) ≤ s'.clock then
        some s'
      else
        driverAux target step n (curEnd + step) s'

/-- `run_simulation_streamlit(fleet_vessels, target_volume)` (with explicit
round fuel and RNG stream): build the fleet simulation and drive it. -/
def runSimulationStreamlit (rounds : ℕ) (fleet : List (String × TSHDConfig))
    (target : ℚ) (rng : List ℚ) : Option (SimState TSHD Shared) :=
  driverAux target (stepH fleet) rounds (stepH fleet) (initFleetSim fleet rng)

/-! ## Queue lemmas -/

theorem insertSorted_perm (e : Event) (l : List Event) :
    (insertSorted e l).Perm (e :: l) := by
  induction l with
  | nil => simp [insertSorted]
  | cons x xs ih =>
      by_cases hx : x.time ≤ e.time
      · simpa [insertSorted, hx] using
          ((ih.cons x).trans (List.Perm.swap e x xs))
      · simp [insertSorted, hx]

theorem mem_insertSorted {x e : Event} {l : List Event} :
    x ∈ insertSorted e l ↔ x = e ∨ x ∈ l := by
  constructor
  · intro hx
    have := (insertSorted_perm e l).mem_iff.mp hx
    simpa using this
  · intro hx
    apply (insertSorted_perm e l).mem_iff.mpr
    simpa using hx

theorem pushAll_perm (q : List Event) (new : List Event) :
    (pushAll q new).Perm (q ++ new) := by
  induction new generalizing q with
  | nil => simp [pushAll]
  | cons x xs ih =>
      have h1 : (pushAll q (x :: xs)) = pushAll (insertSorted x q) xs := rfl
      rw [h1]
      refine (ih (insertSorted x q)).trans ?_
      have h2 : (insertSorted x q).Perm (x :: q) := insertSorted_perm x q
      refine (h2.append_right xs).trans ?_
      exact List.perm_middle.symm

theorem mem_pushAll {x : Event} {q new : List Event} :
    x ∈ pushAll q new ↔ x ∈ q ∨ x ∈ new := by
  rw [(pushAll_perm q new).mem_iff]
  simp

/-- If `e` is earlier than everything in the sorted queue, pushing it back
restores it to the front (`heappush` of a just-popped unique minimum). -/
theorem insertSorted_of_forall_lt {e : Event} {l : List Event}
    (h : ∀ x ∈ l, e.time < x.time) : insertSorted e l = e :: l := by
  cases l with
  | nil => rfl
  | cons x xs =>
      have hx : ¬ x.time ≤ e.time := by
        have := h x (by simp)
        linarith
      simp [insertSorted, hx]

/-! ## `segments.py`: the allocator (claim C4) -/

theorem firstPosIdx_eq_none_iff (l : List ℚ) :
    firstPosIdx l = none ↔ ∀ x ∈ l, x ≤ 0 := by
  induction l with
  | nil => simp [firstPosIdx]
  | cons v vs ih =>
      by_cases hv : 0 < v
      · simp only [firstPosIdx, hv, if_pos]
        constructor
        · intro h
          exact absurd h (by simp)
        · intro h
          exact absurd (h v (by simp)) (by linarith)
      · simp [firstPosIdx, hv, ih]
        intro
        linarith

theorem firstPosIdx_spec {l : List ℚ} {i : ℕ} (h : firstPosIdx l = some i) :
    i < l.length ∧ 0 < l.getD i 0 ∧ ∀ j < i, l.getD j 0 ≤ 0 := by
  induction l generalizing i with
  | nil => simp [firstPosIdx] at h
  | cons v vs ih =>
      by_cases hv : 0 < v
      · simp [firstPosIdx, hv] at h
        subst h
        simp [hv]
      · simp [firstPosIdx, hv] at h
        obtain ⟨i', hi', rfl⟩ := h
        obtain ⟨h0, h1, h2⟩ := ih hi'
        refine ⟨by simpa using h0, by simpa using h1, ?_⟩
        intro j hj
        cases j with
        | zero => simpa using le_of_not_lt hv
        | succ j' => simpa using h2 j' (by omega)

/-- C4: `SegmentManager.allocate(v)` with `v > 0` returns `None` exactly when
no segment has strictly positive remaining volume; otherwise it draws from
the lowest-index segment with strictly positive remaining volume, takes
`min(v, remaining)` from that single segment only (all other segments are
untouched), and reports distance `(segment_index − 1) × segment_length`.
Scenario B: volumes `[1000, 0, 500]`, length 2: three `allocate(5000)` calls
give `(1, 1000, 0)`, `(3, 500, 4)`, `None`.  `allocate(v)` with `v ≤ 0`
returns `None`. -/
theorem c4_allocate_spec :
    (∀ (m : SegmentManager) (v : ℚ), v ≤ 0 → m.allocate v = none) ∧
    (∀ (m : SegmentManager) (v : ℚ), 0 < v →
      (m.allocate v = none ↔ ∀ x ∈ m.remaining_m3, x ≤ 0)) ∧
    (∀ (m : SegmentManager) (v : ℚ) (a : SegmentAllocation)
        (m' : SegmentManager), 0 < v → m.allocate v = some (a, m') →
      ∃ i : ℕ, a.segment_index = i + 1 ∧
        0 < m.remaining_m3.getD i 0 ∧
        (∀ j < i, m.remaining_m3.getD j 0 ≤ 0) ∧
        a.volume_m3 = min v (m.remaining_m3.getD i 0) ∧
        a.distance_to_da_nm = (i : ℚ) * m.segment_length_nm ∧
        m'.remaining_m3 =
          m.remaining_m3.set i (m.remaining_m3.getD i 0 - a.volume_m3) ∧
        m'.segment_length_nm = m.segment_length_nm) ∧
    ((mkSegmentManager [1000, 0, 500] 2).allocate 5000 =
        some (⟨1, 1000, 0⟩, ⟨2, [0, 0, 500]⟩) ∧
      (SegmentManager.mk 2 [0, 0, 500]).allocate 5000 =
        some (⟨3, 500, 4⟩, ⟨2, [0, 0, 0]⟩) ∧
      (SegmentManager.mk 2 [0, 0, 0]).allocate 5000 = none) := by
  refine ⟨?_, ?_, ?_, by decide⟩
  · intro m v hv
    simp [SegmentManager.allocate, hv]
  · intro m v hv
    rw [SegmentManager.allocate, if_neg (not_le.mpr hv)]
    cases hnext : m.next_segment_with_work with
    | none =>
        simp only [hnext]
        rw [SegmentManager.next_segment_with_work, Option.map_eq_none'] at hnext
        simpa [firstPosIdx_eq_none_iff] using hnext
    | some s =>
        simp only [hnext]
        rw [SegmentManager.next_segment_with_work, Option.map_eq_some'] at hnext
        obtain ⟨i, hi, rfl⟩ := hnext
        obtain ⟨h0, h1, -⟩ := firstPosIdx_spec hi
        simp only [iff_false, reduceCtorEq, false_iff, not_forall]
        refine ⟨m.remaining_m3.getD i 0, ?_, by simpa using not_le.mpr h1⟩
        rw [List.getD_eq_getElem?_getD, List.getElem?_eq_getElem h0]
        simp [List.getElem_mem h0]
  · intro m v a m' hv h
    rw [SegmentManager.allocate, if_neg (not_le.mpr hv)] at h
    cases hnext : m.next_segment_with_work with
    | none => simp [hnext] at h
    | some s =>
        simp only [hnext] at h
        rw [SegmentManager.next_segment_with_work, Option.map_eq_some'] at hnext
        obtain ⟨i, hi, rfl⟩ := hnext
        obtain ⟨hlen, h1, h2⟩ := firstPosIdx_spec hi
        obtain ⟨ha, hm'⟩ := Prod.mk.injEq .. ▸ Option.some.injEq .. ▸ h
        refine ⟨i, ?_, h1, h2, ?_, ?_, ?_, ?_⟩ <;>
          simp [← ha, ← hm', Nat.add_sub_cancel]

/-- Witness for C4: the theorem applied to Scenario B's manager. -/
theorem c4_witness :
    (mkSegmentManager [1000, 0, 500] 2).allocate (-1) = none ∧
    ((mkSegmentManager [1000, 0, 500] 2).allocate 5000 = none ↔
      ∀ x ∈ (mkSegmentManager [1000, 0, 500] 2).remaining_m3, x ≤ 0) ∧
    (∃ i : ℕ,
      (SegmentAllocation.mk 1 1000 0).segment_index = i + 1 ∧
      0 < (mkSegmentManager [1000, 0, 500] 2).remaining_m3.getD i 0 ∧
      (∀ j < i, (mkSegmentManager [1000, 0, 500] 2).remaining_m3.getD j 0 ≤ 0) ∧
      (SegmentAllocation.mk 1 1000 0).volume_m3 =
        min 5000 ((mkSegmentManager [1000, 0, 500] 2).remaining_m3.getD i 0) ∧
      (SegmentAllocation.mk 1 1000 0).distance_to_da_nm =
        (i : ℚ) * (mkSegmentManager [1000, 0, 500] 2).segment_length_nm ∧
      (SegmentManager.mk 2 [0, 0, 500]).remaining_m3 =
        (mkSegmentManager [1000, 0, 500] 2).remaining_m3.set i
          ((mkSegmentManager [1000, 0, 500] 2).remaining_m3.getD i 0 -
            (SegmentAllocation.mk 1 1000 0).volume_m3) ∧
      (SegmentManager.mk 2 [0, 0, 500]).segment_length_nm =
        (mkSegmentManager [1000, 0, 500] 2).segment_length_nm) :=
  ⟨c4_allocate_spec.1 _ _ (by decide),
   c4_allocate_spec.2.1 _ _ (by decide),
   c4_allocate_spec.2.2.1 _ 5000 _ _ (by decide) (by decide)⟩

/-! ## Engine-level lemmas: sorted queues, probe states -/

/-- The queue is sorted by event time (the `heapq` representation
invariant of the embedding). -/
def SortedQueue (q : List Event) : Prop :=
  q.Pairwise (fun a b => a.time ≤ b.time)

theorem insertSorted_sorted {e : Event} {l : List Event}
    (hl : SortedQueue l) : SortedQueue (insertSorted e l) := by
  induction l with
  | nil => simp [insertSorted, SortedQueue]
  | cons x xs ih =>
      rw [SortedQueue, List.pairwise_cons] at hl
      obtain ⟨hx, hxs⟩ := hl
      by_cases hle : x.time ≤ e.time
      · rw [insertSorted, if_pos hle, SortedQueue, List.pairwise_cons]
        refine ⟨?_, ih hxs⟩
        intro y hy
        rcases mem_insertSorted.mp hy with rfl | hy
        · exact hle
        · exact hx y hy
      · rw [insertSorted, if_neg hle, SortedQueue, List.pairwise_cons]
        refine ⟨?_, List.pairwise_cons.mpr ⟨hx, hxs⟩⟩
        intro y hy
        rcases List.mem_cons.mp hy with rfl | hy
        · exact le_of_not_le hle
        · exact le_trans (le_of_not_le hle) (hx y hy)

theorem pushAll_sorted {q new : List Event} (hq : SortedQueue q) :
    SortedQueue (pushAll q new) := by
  induction new generalizing q with
  | nil => exact hq
  | cons x xs ih => exact ih (insertSorted_sorted hq)

theorem dispatch_clock {ε κ : Type} (h : Handler ε κ) (s : SimState ε κ)
    (e : Event) : (dispatch h s e).clock = e.time := by
  cases hl : lookupEntity s e.entity_id <;> simp [dispatch, hl]

theorem dispatch_processed {ε κ : Type} (h : Handler ε κ) (s : SimState ε κ)
    (e : Event) :
    (dispatch h s e).stats.events_processed = s.stats.events_processed + 1 := by
  cases hl : lookupEntity s e.entity_id <;> simp [dispatch, hl]

theorem dispatch_queue {ε κ : Type} (h : Handler ε κ) (s : SimState ε κ)
    (e : Event) :
    (dispatch h s e).eventQueue = pushAll s.eventQueue (dispatchNew h s e) := by
  cases hl : lookupEntity s e.entity_id <;> simp [dispatch, dispatchNew, hl, pushAll]

theorem dispatch_running {ε κ : Type} (h : Handler ε κ) (s : SimState ε κ)
    (e : Event) : (dispatch h s e).running = s.running := by
  cases hl : lookupEntity s e.entity_id <;> simp [dispatch, hl]

theorem dispatch_of_absent {ε κ : Type} (h : Handler ε κ) (s : SimState ε κ)
    (e : Event) (habs : lookupEntity s e.entity_id = none) :
    dispatch h s e =
      { s with
        clock := e.time
        stats := { s.stats with
          events_processed := s.stats.events_processed + 1 } } := by
  simp [dispatch, habs]

theorem dispatch_of_present {ε κ : Type} (h : Handler ε κ) (s : SimState ε κ)
    (e : Event) (ent : ε) (hl : lookupEntity s e.entity_id = some ent) :
    dispatch h s e =
      { s with
        clock := e.time
        entities := updateEntity e.entity_id (h ent s.shared e.time e).entity
          s.entities
        shared := (h ent s.shared e.time e).shared
        eventQueue := pushAll s.eventQueue (h ent s.shared e.time e).newEvents
        stats :=
          { s.stats with
            events_processed := s.stats.events_processed + 1
            total_dredging_time := s.stats.total_dredging_time +
              (h ent s.shared e.time e).dDredging
            total_moving_time := s.stats.total_moving_time +
              (h ent s.shared e.time e).dMoving
            total_dumping_time := s.stats.total_dumping_time +
              (h ent s.shared e.time e).dDumping
            dredging_cycles := s.stats.dredging_cycles +
              (h ent s.shared e.time e).dCycles } } := by
  simp [dispatch, hl]

theorem find_pair_nodup {ε : Type} (l : List (String × ε))
    (hnd : (l.map Prod.fst).Nodup) (p : String × ε) (hp : p ∈ l) :
    l.find? (fun q => q.1 = p.1) = some p := by
  induction l with
  | nil => simp at hp
  | cons q l ih =>
      rcases List.mem_cons.mp hp with rfl | hp
      · simp [List.find?]
      · have hq : ¬ (q.1 = p.1) := by
          intro hc
          have : p.1 ∈ l.map Prod.fst := List.mem_map.mpr ⟨p, hp, rfl⟩
          rw [← hc] at this
          exact (List.nodup_cons.mp hnd).1 this
        rw [List.find?_cons_of_neg _ (by simpa using hq)]
        exact ih (List.nodup_cons.mp hnd).2 hp

/-- With unique keys, the registered pair for a key is looked up exactly. -/
theorem lookup_of_mem_nodup {ε κ : Type} {s : SimState ε κ}
    (hnd : (s.entities.map Prod.fst).Nodup) {p : String × ε}
    (hp : p ∈ s.entities) : lookupEntity s p.1 = some p.2 := by
  rw [lookupEntity, find_pair_nodup s.entities hnd p hp]
  rfl

theorem lookupEntity_none {ε κ : Type} {s : SimState ε κ} {eid : String}
    (hl : lookupEntity s eid = none) : ∀ p ∈ s.entities, p.1 ≠ eid := by
  intro p hp
  rw [lookupEntity, Option.map_eq_none'] at hl
  have := List.find?_eq_none.mp hl p hp
  simpa using this

theorem lookupEntity_find {ε κ : Type} {s : SimState ε κ} {eid : String}
    {ent : ε} (hl : lookupEntity s eid = some ent) :
    ∃ pf ∈ s.entities, pf.1 = eid ∧ pf.2 = ent := by
  rw [lookupEntity, Option.map_eq_some'] at hl
  obtain ⟨pf, hpf, rfl⟩ := hl
  refine ⟨pf, List.mem_of_find?_eq_some hpf, ?_, rfl⟩
  have := List.find?_some hpf
  simpa using this

theorem updateEntity_keys {ε : Type} (eid : String) (x : ε)
    (l : List (String × ε)) :
    (updateEntity eid x l).map Prod.fst = l.map Prod.fst := by
  induction l with
  | nil => rfl
  | cons q l ih =>
      rw [updateEntity] at ih ⊢
      by_cases hq : q.1 = eid <;> simp [hq, ih]

/-- A no-op entity: its handler changes nothing and schedules nothing (the
engine claims hold for arbitrary entities, and this instantiates them). -/
def unitHandler : Handler Unit Unit := fun u k _ _ => { entity := u, shared := k }

/-- A concrete probe event at time `t`. -/
def probeEvent (t : ℚ) : Event :=
  { time := t, event_type := EventType.DREDGING_START, entity_id := "x" }

/-- A fresh engine whose queue holds the single probe event at time `t` and
which knows no entities. -/
def probeState (t : ℚ) : SimState Unit Unit :=
  { eventQueue := [probeEvent t], shared := () }

/-! ## Claim C1: semantics of the bounded run loop -/

/-- C1 (amended: for a nonzero bound `until`; Python treats `run(0.0)` as
unbounded).  For `run(until)` with `until ≠ 0`: if the earliest queued event
is strictly beyond `until`, it is pushed back unconsumed (the queue is a
permutation of what it was) and the call returns with the clock exactly
`until`; if its time is at most `until`, it is popped, the clock advances to
its time, `events_processed` increments once for it, and the loop
continues. -/
theorem c1_run_horizon_semantics {ε κ : Type} (h : Handler ε κ) (u : ℚ)
    (hu : u ≠ 0) (s : SimState ε κ) (e : Event) (rest : List Event)
    (hq : s.eventQueue = e :: rest) (n : ℕ) :
    (u < e.time →
      runSim h (n + 1) (some u) s =
        ({ s with eventQueue := insertSorted e rest, clock := u,
                  running := false }, true) ∧
      (insertSorted e rest).Perm s.eventQueue) ∧
    (e.time ≤ u →
      runSim h (n + 1) (some u) s =
        runAux h n (some u)
          (dispatch h { s with eventQueue := rest, running := true } e) ∧
      (dispatch h { s with eventQueue := rest, running := true } e).clock = e.time ∧
      (dispatch h { s with eventQueue := rest, running := true } e).stats.events_processed = s.stats.events_processed + 1) := by
  obtain ⟨clk, q, ents, st, run, shr⟩ := s
  simp only at hq
  subst hq
  constructor
  · intro hlt
    constructor
    · simp [runSim, runAux, truthy, hu, hlt]
    · exact insertSorted_perm e rest
  · intro hle
    refine ⟨?_, dispatch_clock .., dispatch_processed ..⟩
    simp [runSim, runAux, truthy, hu, not_lt.mpr hle]

/-- Witness for C1: a fresh engine holding one event at time 3, run with
bound 2: the event is pushed back and the clock is capped at exactly 2. -/
theorem c1_witness :
    runSim unitHandler 1 (some 2) (probeState 3) =
      ({ probeState 3 with
          eventQueue := insertSorted (probeEvent 3) []
          clock := 2
          running := false }, true) ∧
    (insertSorted (probeEvent 3) []).Perm (probeState 3).eventQueue :=
  (c1_run_horizon_semantics unitHandler 2 (by decide) (probeState 3)
    (probeEvent 3) [] rfl 0).1 (by decide)

/-- Counterexample for C1 as stated: `run(0.0)` (a bound of zero) does not
cap at the horizon — Python treats the 0.0 `end_time` as falsy — so the
event at time 3 is consumed and the clock ends at 3, not 0. -/
theorem c1_counterexample_zero_bound :
    (runSim unitHandler 2 (some 0) (probeState 3)).1.clock = 3 ∧
    (runSim unitHandler 2 (some 0) (probeState 3)).1.eventQueue = [] ∧
    ¬ ((runSim unitHandler 2 (some 0) (probeState 3)).1.clock = 0 ∧
        (runSim unitHandler 2 (some 0) (probeState 3)).1.eventQueue =
          [probeEvent 3]) := by
  decide

/-! ## Claim C2: the clock never regresses -/

/-- C2 (amended: the clock never regresses provided events are never
scheduled in the past and `run` is never called with a bound below the
current clock; `run` with a bound below the clock, or a stale queued event,
does move the clock backwards).  `schedule_event` never changes the clock,
and for any handler that only schedules events at or after the dispatch
time, a `run` whose (truthy) bound is at least the current clock, on a
time-sorted queue of events at or after the current clock, only ever moves
the clock forward, and re-establishes those queue conditions on return. -/
theorem c2_clock_monotone {ε κ : Type} (h : Handler ε κ)
    (Hm : ∀ (ent : ε) (k : κ) (e elem : Event),
      elem ∈ (h ent k e.time e).newEvents → e.time ≤ elem.time) :
    (∀ (s : SimState ε κ) (e : Event), (scheduleEvent s e).clock = s.clock) ∧
    (∀ (n : ℕ) (endT : Option ℚ) (s : SimState ε κ),
      SortedQueue s.eventQueue →
      (∀ e ∈ s.eventQueue, s.clock ≤ e.time) →
      (truthy endT = true → s.clock ≤ endT.getD 0) →
      s.clock ≤ (runAux h n endT s).1.clock ∧
      SortedQueue (runAux h n endT s).1.eventQueue ∧
      (∀ e ∈ (runAux h n endT s).1.eventQueue,
        (runAux h n endT s).1.clock ≤ e.time)) := by
  refine ⟨fun s e => rfl, ?_⟩
  intro n
  induction n with
  | zero => exact fun endT s h1 h2 h3 => ⟨le_refl _, h1, h2⟩
  | succ n ih =>
      intro endT s h1 h2 h3
      obtain ⟨clk, q, ents, st, run, shr⟩ := s
      rcases q with - | ⟨e, rest⟩
      · exact ⟨le_refl _, h1, h2⟩
      · rcases run with - | -
        · exact ⟨le_refl _, h1, h2⟩
        · have hhead : ∀ x ∈ rest, e.time ≤ x.time :=
            (List.pairwise_cons.mp h1).1
          have hrest : SortedQueue rest := (List.pairwise_cons.mp h1).2
          have hclock : clk ≤ e.time := h2 e (by simp)
          simp only [runAux]
          by_cases hcap : truthy endT = true ∧ endT.getD 0 < e.time
          · rw [if_pos hcap]
            refine ⟨h3 hcap.1, insertSorted_sorted hrest, ?_⟩
            intro x hx
            rcases mem_insertSorted.mp hx with rfl | hx
            · exact le_of_lt hcap.2
            · exact le_trans (le_of_lt hcap.2) (hhead x hx)
          · rw [if_neg hcap]
            set s₂ : SimState ε κ := ⟨clk, rest, ents, st, true, shr⟩ with hs₂
            have hdq : (dispatch h s₂ e).eventQueue =
                pushAll rest (dispatchNew h s₂ e) := dispatch_queue ..
            have hdc : (dispatch h s₂ e).clock = e.time := dispatch_clock ..
            have hnew : ∀ x ∈ dispatchNew h s₂ e, e.time ≤ x.time := by
              intro x hx
              rw [dispatchNew] at hx
              split at hx
              · simp at hx
              · exact Hm _ _ _ _ hx
            have hrq : ∀ x ∈ pushAll rest (dispatchNew h s₂ e),
                e.time ≤ x.time := by
              intro x hx
              rcases List.mem_append.mp
                  ((pushAll_perm _ _).mem_iff.mp hx) with hx | hx
              · exact hhead x hx
              · exact hnew x hx
            obtain ⟨ih1, ih2, ih3⟩ := ih endT (dispatch h s₂ e)
              (by rw [hdq]; exact pushAll_sorted hrest)
              (by rw [hdq, hdc]; exact hrq)
              (by
                intro ht
                rw [hdc]
                rcases not_and_or.mp hcap with hc | hc
                · exact absurd ht hc
                · exact le_of_not_lt hc)
            exact ⟨le_trans hclock (hdc ▸ ih1), ih2, ih3⟩

/-- Witness for C2: the run of a fresh engine with one event at time 7 and
bound 3 only moves the clock forward. -/
theorem c2_witness :
    (probeState 7).clock ≤ (runAux unitHandler 2 (some 3) (probeState 7)).1.clock ∧
    SortedQueue (runAux unitHandler 2 (some 3) (probeState 7)).1.eventQueue ∧
    (∀ e ∈ (runAux unitHandler 2 (some 3) (probeState 7)).1.eventQueue,
      (runAux unitHandler 2 (some 3) (probeState 7)).1.clock ≤ e.time) :=
  (c2_clock_monotone unitHandler
      (by intro ent k e elem hmem; simp [unitHandler] at hmem)).2
    2 (some 3) (probeState 7)
    (by rw [SortedQueue]; decide)
    (by decide)
    (by intro ht; decide)

/-- Counterexample for C2 as stated: schedule an event at time 7, run to
bound 3 (clock becomes 3), then call `run` again with the smaller bound 2 —
the horizon cap assigns the clock 2, strictly below its current value 3. -/
theorem c2_counterexample_regression :
    ((runSim unitHandler 2 (some 3)
        (scheduleEvent { shared := (), clock := 0 } (probeEvent 7))).1).clock = 3 ∧
    ((runSim unitHandler 2 (some 2)
        ((runSim unitHandler 2 (some 3)
          (scheduleEvent { shared := (), clock := 0 } (probeEvent 7))).1)).1).clock = 2 ∧
    ¬ ((3:ℚ) ≤ 2) := by
  decide

/-! ## Claim C8: events for unknown entities are dropped, not fatal -/

/-- C8: an event within the horizon whose `owner_id` is not in the entity
registry does not abort the run: the clock still advances to its time,
`events_processed` still increments for it, the event is dropped without
touching any entity or the shared context, and the loop goes on processing
the remaining queue with the remaining fuel. -/
theorem c8_unknown_entity_skipped {ε κ : Type} (h : Handler ε κ)
    (endT : Option ℚ) (s : SimState ε κ) (e : Event) (rest : List Event)
    (hq : s.eventQueue = e :: rest)
    (habs : lookupEntity s e.entity_id = none)
    (hin : ¬ (truthy endT = true ∧ endT.getD 0 < e.time)) (n : ℕ) :
    runSim h (n + 1) endT s =
      runAux h n endT
        { s with
          running := true
          eventQueue := rest
          clock := e.time
          stats := { s.stats with
            events_processed := s.stats.events_processed + 1 } } := by
  obtain ⟨clk, q, ents, st, run, shr⟩ := s
  simp only at hq
  subst hq
  rw [runSim]
  show runAux h (n + 1) endT ⟨clk, e :: rest, ents, st, true, shr⟩ = _
  rw [runAux]
  simp only [if_neg hin]
  congr 1
  exact dispatch_of_absent h _ e (by simpa [lookupEntity] using habs)

/-- Witness for C8: a queue holding one event at time 3 owned by an
unregistered entity, run with bound 5: the drop step happens exactly as the
theorem states. -/
theorem c8_witness :
    runSim unitHandler 1 (some 5) (probeState 3) =
      runAux unitHandler 0 (some 5)
        { probeState 3 with
          running := true
          eventQueue := []
          clock := (probeEvent 3).time
          stats := { (probeState 3).stats with
            events_processed := (probeState 3).stats.events_processed + 1 } } :=
  c8_unknown_entity_skipped unitHandler (some 5) (probeState 3)
    (probeEvent 3) [] rfl (by decide) (by decide) 0

/-! ## Claim C9: floors of the sampled durations -/

/-- The configured floor of each task's sampled duration: the first argument
of the `max(...)` clamps in `tshd.py` (0.1 / 0.01 / 0.05 / 0.01). -/
def floorOf : TaskKind → ℚ
  | TaskKind.dredging => 1/10
  | TaskKind.moving_to_da => 1/100
  | TaskKind.dumping => 1/20
  | TaskKind.moving_back => 1/100

/-- A log entry respects the floors: any duration sample is at least its
task's configured floor. -/
def entryFloorOK : LogEntry → Bool
  | LogEntry.msg .. => true
  | LogEntry.sample _ task d _ _ _ _ => floorOf task ≤ d

/-- All vessels of the simulation have floor-respecting logs. -/
def VesselsFloorOK (s : SimState TSHD Shared) : Prop :=
  ∀ p ∈ s.entities, ∀ en ∈ p.2.event_log, entryFloorOK en = true

theorem mkDredgingSample_floors (v : TSHD) (sh : Shared) (clock : ℚ)
    (vol dist : ℚ) (segIdx : Option ℕ)
    (hv : ∀ en ∈ v.event_log, entryFloorOK en = true) :
    ∀ en ∈ (TSHD.startDredging.mkDredgingSample v sh clock vol dist
      segIdx).entity.event_log, entryFloorOK en = true := by
  intro en hen
  simp only [TSHD.startDredging.mkDredgingSample] at hen
  rcases List.mem_append.mp hen with h1 | h2
  · exact hv en h1
  · simp only [List.mem_singleton] at h2
    subst h2
    simp [entryFloorOK, floorOf]

/-- Every handler of `tshd.py` only ever appends floor-respecting entries to
`event_log`: each sampled duration is written as `max(floor, draw)`. -/
theorem handleEvent_log_floors (v : TSHD) (sh : Shared) (clock : ℚ) (e : Event)
    (hv : ∀ en ∈ v.event_log, entryFloorOK en = true) :
    ∀ en ∈ (TSHD.handleEvent v sh clock e).entity.event_log,
      entryFloorOK en = true := by
  intro en hen
  cases he : e.event_type
  case DREDGING_START =>
      simp only [TSHD.handleEvent, he] at hen
      rcases hsm : sh.segManager with - | m
      · simp only [TSHD.startDredging, hsm, Option.map_none',
          TSHD.startDredging.mkDredgingSample, List.mem_append,
          List.mem_singleton] at hen
        rcases hen with (hen | rfl) | rfl
        · exact hv en hen
        · simp [entryFloorOK]
        · simp [entryFloorOK, floorOf, le_max_iff]
      · simp only [TSHD.startDredging, hsm, Option.map_some'] at hen
        rcases halloc : m.allocate v.config.hopper_capacity with - | ⟨alloc, mn⟩
        · rw [halloc] at hen
          simp only [List.mem_append, List.mem_singleton] at hen
          rcases hen with (hen | rfl) | rfl
          · exact hv en hen
          · simp [entryFloorOK]
          · simp [entryFloorOK]
        · rw [halloc] at hen
          by_cases hvol : alloc.volume_m3 ≤ 0
          · simp only [if_pos hvol, List.mem_append,
              List.mem_singleton] at hen
            rcases hen with (hen | rfl) | rfl
            · exact hv en hen
            · simp [entryFloorOK]
            · simp [entryFloorOK]
          · simp only [if_neg hvol, TSHD.startDredging.mkDredgingSample,
              List.mem_append, List.mem_singleton] at hen
            rcases hen with (hen | rfl) | rfl
            · exact hv en hen
            · simp [entryFloorOK]
            · simp [entryFloorOK, floorOf, le_max_iff]
  case DREDGING_COMPLETE =>
      simp only [TSHD.handleEvent, he, TSHD.completeDredging,
        List.mem_append, List.mem_singleton] at hen
      rcases hen with (hen | rfl) | rfl
      · exact hv en hen
      · simp [entryFloorOK]
      · simp [entryFloorOK, floorOf, le_max_iff]
  case MOVE_TO_DA_START =>
      simp only [TSHD.handleEvent, he, TSHD.startMoveToDa,
        List.mem_append, List.mem_singleton] at hen
      rcases hen with hen | rfl
      · exact hv en hen
      · simp [entryFloorOK]
  case MOVE_TO_DA_COMPLETE =>
      simp only [TSHD.handleEvent, he, TSHD.completeMoveToDa,
        List.mem_append, List.mem_singleton] at hen
      rcases hen with (hen | rfl) | rfl
      · exact hv en hen
      · simp [entryFloorOK]
      · simp [entryFloorOK, floorOf, le_max_iff]
  case DUMPING_START =>
      simp only [TSHD.handleEvent, he, TSHD.startDumping,
        List.mem_append, List.mem_singleton] at hen
      rcases hen with hen | rfl
      · exact hv en hen
      · simp [entryFloorOK]
  case DUMPING_COMPLETE =>
      simp only [TSHD.handleEvent, he, TSHD.completeDumping,
        List.mem_append, List.mem_singleton] at hen
      rcases hen with (hen | rfl) | rfl
      · exact hv en hen
      · simp [entryFloorOK]
      · simp [entryFloorOK, floorOf, le_max_iff]
  case MOVE_BACK_START =>
      simp only [TSHD.handleEvent, he, TSHD.startMoveBack,
        List.mem_append, List.mem_singleton] at hen
      rcases hen with hen | rfl
      · exact hv en hen
      · simp [entryFloorOK]
  case MOVE_BACK_COMPLETE =>
      simp only [TSHD.handleEvent, he, TSHD.completeMoveBack,
        List.mem_append, List.mem_singleton] at hen
      rcases hen with hen | rfl
      · exact hv en hen
      · simp [entryFloorOK]

theorem lookupEntity_mem {ε κ : Type} {s : SimState ε κ} {eid : String}
    {ent : ε} (h : lookupEntity s eid = some ent) :
    ∃ p ∈ s.entities, p.2 = ent := by
  rw [lookupEntity, Option.map_eq_some'] at h
  obtain ⟨p, hp, rfl⟩ := h
  exact ⟨p, List.mem_of_find?_eq_some hp, rfl⟩

/-- A generic preservation principle for the run loop: a property of the
simulation state that no queue/clock/running change can break, and that
`dispatch` preserves, is a run invariant. -/
theorem runAux_preserves {ε κ : Type} (h : Handler ε κ)
    (P : SimState ε κ → Prop)
    (Hqueue : ∀ (s : SimState ε κ) (q : List Event) (c : ℚ) (r : Bool),
      P s → P { s with eventQueue := q, clock := c, running := r })
    (Hdispatch : ∀ (s : SimState ε κ) (e : Event), P s → P (dispatch h s e)) :
    ∀ (n : ℕ) (endT : Option ℚ) (s : SimState ε κ),
      P s → P (runAux h n endT s).1 := by
  intro n
  induction n with
  | zero => exact fun endT s hs => hs
  | succ n ih =>
      intro endT s hs
      obtain ⟨clk, q, ents, st, run, shr⟩ := s
      rcases q with - | ⟨e, rest⟩
      · exact Hqueue _ [] clk false hs
      · rcases run with - | -
        · exact Hqueue _ (e :: rest) clk false hs
        · simp only [runAux]
          by_cases hcap : truthy endT = true ∧ endT.getD 0 < e.time
          · rw [if_pos hcap]
            exact Hqueue _ _ _ _ hs
          · rw [if_neg hcap]
            exact ih endT _ (Hdispatch _ e (Hqueue _ rest clk true hs))

/-- C9 (amended: every sampled duration is at least — not strictly greater
than — its phase's floor; the clamp is `max(floor, draw)`, so a draw at or
below the floor is recorded as exactly the floor).  The floors are 0.1
(dredging), 0.01 (outbound transit), 0.05 (dumping) and 0.01 (return
transit); every handler call and every run keep all vessels' recorded
samples at or above their floors, for all random draws. -/
theorem c9_duration_floors :
    floorOf TaskKind.dredging = 1/10 ∧
    floorOf TaskKind.moving_to_da = 1/100 ∧
    floorOf TaskKind.dumping = 1/20 ∧
    floorOf TaskKind.moving_back = 1/100 ∧
    (∀ (v : TSHD) (sh : Shared) (clock : ℚ) (e : Event),
      (∀ en ∈ v.event_log, entryFloorOK en = true) →
      ∀ en ∈ (TSHD.handleEvent v sh clock e).entity.event_log,
        entryFloorOK en = true) ∧
    (∀ (n : ℕ) (endT : Option ℚ) (s : SimState TSHD Shared),
      VesselsFloorOK s → VesselsFloorOK (runAux tshdHandler n endT s).1) := by
  refine ⟨rfl, rfl, rfl, rfl, handleEvent_log_floors, ?_⟩
  refine runAux_preserves tshdHandler VesselsFloorOK ?_ ?_
  · intro s q c r hs p hp
    exact hs p hp
  · intro s e hs p hp
    rcases hl : lookupEntity s e.entity_id with - | ent
    · rw [dispatch_of_absent _ _ _ hl] at hp
      exact hs p hp
    · rw [dispatch] at hp
      rw [hl] at hp
      simp only [updateEntity, List.mem_map] at hp
      obtain ⟨pr, hpr, hpe⟩ := hp
      obtain ⟨q2, hq2, rfl⟩ := lookupEntity_mem hl
      by_cases hid : pr.1 = e.entity_id
      · rw [if_pos hid] at hpe
        subst hpe
        exact handleEvent_log_floors _ _ _ _ (hs q2 hq2)
      · rw [if_neg hid] at hpe
        subst hpe
        exact hs pr hpr

/-- The concrete probe simulation for C9: one default-configured vessel and
a standard-normal draw of −1000 (so the raw dredging draw is far below the
floor). -/
def floorProbeSim : SimState TSHD Shared :=
  { entities := [("A", initVessel "A" {})]
    eventQueue := [{ time := 0
                     event_type := EventType.DREDGING_START
                     entity_id := "A" }]
    shared := { segManager := none, rng := [-1000] } }

/-- Witness for C9: after one run step of the probe simulation, all
recorded samples respect their floors. -/
theorem c9_witness :
    VesselsFloorOK (runAux tshdHandler 1 (some 1) floorProbeSim).1 :=
  c9_duration_floors.2.2.2.2.2 1 (some 1) floorProbeSim (by
    intro p hp en hen
    simp only [floorProbeSim, initVessel, List.mem_singleton] at hp
    rw [hp] at hen
    simp at hen)

/-- Counterexample for C9 as stated: with a draw of −1000 the sampled
dredging duration is recorded as exactly 0.1 — the floor itself — which is
not strictly greater than 0.1. -/
theorem c9_counterexample_floor_attained :
    (runSim tshdHandler 1 (some 1) floorProbeSim).1.entities.map
        (fun p => p.2.event_log) =
      [[LogEntry.msg 0 "Starting dredging" TSHDState.DREDGING,
        LogEntry.sample 0 TaskKind.dredging (1/10) (some 5000) none none
          TSHDState.DREDGING]] ∧
    ¬ ((1:ℚ)/10 > 1/10) := by
  decide

/-! ## Claim C3: the return leg ignores the segment distance -/

/-- The `(task, distance_nm)` pairs of a vessel's duration samples, in
order. -/
def sampleTaskDistances (v : TSHD) : List (TaskKind × Option ℚ) :=
  v.event_log.filterMap (fun en =>
    match en with
    | LogEntry.sample _ task _ _ dist _ _ => some (task, dist)
    | _ => none)

/-- A one-vessel simulation over a segment channel `[0, 0, 500]` with
segment length 2 nm, so the allocator reports an outbound distance of
4 nm (segment 3), while the default config has `distance_back = 5`. -/
def segProbeSim : SimState TSHD Shared :=
  { entities := [("A", initVessel "A" {})]
    eventQueue := [{ time := 0
                     event_type := EventType.DREDGING_START
                     entity_id := "A" }]
    shared := { segManager := some (mkSegmentManager [0, 0, 500] 2)
                rng := [] } }

/-- C3: the claim is right and the code is wrong.  `_complete_move_to_da`
schedules `DUMPING_COMPLETE` with only `actual_dumping_time` in its data, so
`_complete_dumping`'s `event.data.get("distance_to_da_nm",
self.config.distance_back)` always falls back to the configured fixed
return distance — despite the inline comment "If segmentation enabled,
return distance equals distance-to-DA for that segment".  Concretely: with
segment volumes `[0, 0, 500]` and length 2, the outbound leg of the cycle
samples with the allocator's distance 4, but the return leg samples with
`distance_back = 5 ≠ 4`. -/
theorem c3_return_leg_uses_config_distance :
    (runSim tshdHandler 20 (some 5) segProbeSim).1.entities.map
        (fun p => sampleTaskDistances p.2) =
      [[(TaskKind.dredging, none), (TaskKind.moving_to_da, some 4),
        (TaskKind.dumping, none), (TaskKind.moving_back, some 5)]] ∧
    (initVessel "A" {}).config.distance_back = 5 ∧
    ((4:ℚ) = 5 → False) := by
  decide

/-! ## TSHD handler frame facts -/

/-- Event types whose handler always schedules a further event that again
has this property (with no segment manager): `DREDGING_START` and the four
`*_COMPLETE` events.  The `*_START` events only log. -/
def spawning : EventType → Bool
  | EventType.DREDGING_START => true
  | EventType.DREDGING_COMPLETE => true
  | EventType.MOVE_TO_DA_COMPLETE => true
  | EventType.DUMPING_COMPLETE => true
  | EventType.MOVE_BACK_COMPLETE => true
  | _ => false

/-- Frame facts true of every TSHD handler call: the vessel keeps its
identity and configuration, every scheduled event is addressed to the
vessel itself, an absent segment manager stays absent, and — with no
segment manager — a spawning event always schedules another spawning
event. -/
theorem handleEvent_frame (v : TSHD) (sh : Shared) (clock : ℚ) (e : Event) :
    (TSHD.handleEvent v sh clock e).entity.entity_id = v.entity_id ∧
    (TSHD.handleEvent v sh clock e).entity.config = v.config ∧
    (∀ e2 ∈ (TSHD.handleEvent v sh clock e).newEvents,
      e2.entity_id = v.entity_id) ∧
    (sh.segManager = none →
      (TSHD.handleEvent v sh clock e).shared.segManager = none) ∧
    (sh.segManager = none → spawning e.event_type = true →
      ∃ e2 ∈ (TSHD.handleEvent v sh clock e).newEvents,
        spawning e2.event_type = true) := by
  have hdraw : ∀ (sh2 : Shared) (m sd : ℚ),
      (sh2.draw m sd).2.segManager = sh2.segManager := by
    intro sh2 m sd
    rcases sh2 with ⟨sm, rng⟩
    cases rng <;> simp [Shared.draw]
  cases he : e.event_type
  case DREDGING_START =>
      rcases hsm : sh.segManager with - | m
      · simp [TSHD.handleEvent, he, TSHD.startDredging, hsm,
          TSHD.startDredging.mkDredgingSample, hdraw, spawning]
      · rcases halloc : m.allocate v.config.hopper_capacity with - | ⟨alloc, mn⟩
        · simp [TSHD.handleEvent, he, TSHD.startDredging, hsm, halloc]
        · by_cases hvol : alloc.volume_m3 ≤ 0
          · simp [TSHD.handleEvent, he, TSHD.startDredging, hsm, halloc, hvol]
          · simp [TSHD.handleEvent, he, TSHD.startDredging, hsm, halloc, hvol,
              TSHD.startDredging.mkDredgingSample, hdraw, spawning]
  case DREDGING_COMPLETE =>
      simp [TSHD.handleEvent, he, TSHD.completeDredging, hdraw, spawning]
  case MOVE_TO_DA_START =>
      simp [TSHD.handleEvent, he, TSHD.startMoveToDa, spawning]
  case MOVE_TO_DA_COMPLETE =>
      simp [TSHD.handleEvent, he, TSHD.completeMoveToDa, hdraw, spawning]
  case DUMPING_START =>
      simp [TSHD.handleEvent, he, TSHD.startDumping, spawning]
  case DUMPING_COMPLETE =>
      simp [TSHD.handleEvent, he, TSHD.completeDumping, hdraw, spawning]
  case MOVE_BACK_START =>
      simp [TSHD.handleEvent, he, TSHD.startMoveBack, spawning]
  case MOVE_BACK_COMPLETE =>
      simp [TSHD.handleEvent, he, TSHD.completeMoveBack, spawning]

/-! ## Claim C5: dredged-volume accounting -/

/-- The volumes recorded in the dredging-duration samples of a log. -/
def dredgeVolumesOf : List LogEntry → List ℚ :=
  List.filterMap (fun en =>
    match en with
    | LogEntry.sample _ TaskKind.dredging _ vol _ _ _ => some (vol.getD 0)
    | _ => none)

/-- The sum of the volume values recorded in a vessel's dredging-duration
samples. -/
def dredgeSampleSum (v : TSHD) : ℚ := (dredgeVolumesOf v.event_log).sum

/-- The allocated volumes of the `DREDGING_COMPLETE` events for vessel
`vid` still sitting in the queue (the in-flight dredge loads). -/
def pendingDredgeVolumes (q : List Event) (vid : String) : List ℚ :=
  q.filterMap (fun e =>
    if e.entity_id = vid ∧ e.event_type = EventType.DREDGING_COMPLETE
    then some (e.data.allocated_volume_m3.getD 0) else none)

/-- The volume an event adds to its owner's `total_dredged` when
processed. -/
def dcVolume (e : Event) : ℚ :=
  if e.event_type = EventType.DREDGING_COMPLETE
  then e.data.allocated_volume_m3.getD 0 else 0

/-- The per-vessel accounting invariant of the whole simulation state:
entity keys are unique and consistent, every queued `DREDGING_COMPLETE`
event carries an explicit non-negative allocated volume, and each vessel's
dredging-sample sum equals its `total_dredged` plus its in-flight loads. -/
def DredgeAccounting (s : SimState TSHD Shared) : Prop :=
  (s.entities.map Prod.fst).Nodup ∧
  (∀ p ∈ s.entities, p.2.entity_id = p.1) ∧
  (∀ e ∈ s.eventQueue, e.event_type = EventType.DREDGING_COMPLETE →
    e.data.allocated_volume_m3.isSome = true ∧
    0 ≤ e.data.allocated_volume_m3.getD 0) ∧
  (∀ p ∈ s.entities, 0 ≤ p.2.config.hopper_capacity ∧
    dredgeSampleSum p.2 =
      p.2.total_dredged + (pendingDredgeVolumes s.eventQueue p.1).sum)

theorem pendingDredgeVolumes_cons (e : Event) (q : List Event) (vid : String) :
    pendingDredgeVolumes (e :: q) vid =
      (if e.entity_id = vid ∧ e.event_type = EventType.DREDGING_COMPLETE
       then [e.data.allocated_volume_m3.getD 0] else []) ++
      pendingDredgeVolumes q vid := by
  rw [pendingDredgeVolumes, List.filterMap_cons]
  split <;> rename_i hsplit
  · rw [if_neg]
    · rfl
    · intro hc
      rw [if_pos hc] at hsplit
      exact Option.noConfusion hsplit
  · rename_i val
    have hc : e.entity_id = vid ∧ e.event_type = EventType.DREDGING_COMPLETE := by
      by_contra hc
      rw [if_neg hc] at hsplit
      exact Option.noConfusion hsplit
    rw [if_pos hc] at hsplit ⊢
    rw [Option.some.injEq] at hsplit
    rw [hsplit]
    rfl

theorem pendingDredgeVolumes_perm {q q2 : List Event} (hp : q.Perm q2)
    (vid : String) :
    (pendingDredgeVolumes q vid).Perm (pendingDredgeVolumes q2 vid) :=
  hp.filterMap _

theorem pendingDredgeVolumes_append (q q2 : List Event) (vid : String) :
    pendingDredgeVolumes (q ++ q2) vid =
      pendingDredgeVolumes q vid ++ pendingDredgeVolumes q2 vid :=
  List.filterMap_append ..

theorem pending_sum_pushAll (q new : List Event) (vid : String) :
    (pendingDredgeVolumes (pushAll q new) vid).sum =
      (pendingDredgeVolumes q vid).sum +
      (pendingDredgeVolumes new vid).sum := by
  rw [(pendingDredgeVolumes_perm (pushAll_perm q new) vid).sum_eq,
    pendingDredgeVolumes_append, List.sum_append]

theorem pendingDredgeVolumes_eq_nil {q : List Event} {vid : String}
    (h : ∀ e ∈ q, e.entity_id ≠ vid) :
    pendingDredgeVolumes q vid = [] := by
  induction q with
  | nil => rfl
  | cons e q ih =>
      rw [pendingDredgeVolumes_cons, if_neg, List.nil_append]
      · exact ih fun x hx => h x (List.mem_cons_of_mem e hx)
      · intro hc
        exact h e (List.mem_cons_self e q) hc.1

/-- Accounting effect of one handler call: new `DREDGING_COMPLETE` events
always carry an explicit non-negative volume; the dredging-sample sum grows
by exactly the volume of the newly scheduled in-flight load; and
`total_dredged` grows by exactly the volume of the completed load (zero for
all other event types). -/
theorem handleEvent_accounting (v : TSHD) (sh : Shared) (clock : ℚ)
    (e : Event) (hcap : 0 ≤ v.config.hopper_capacity)
    (hwf : e.event_type = EventType.DREDGING_COMPLETE →
      e.data.allocated_volume_m3.isSome = true) :
    (∀ e2 ∈ (TSHD.handleEvent v sh clock e).newEvents,
      e2.event_type = EventType.DREDGING_COMPLETE →
        e2.data.allocated_volume_m3.isSome = true ∧
        0 ≤ e2.data.allocated_volume_m3.getD 0) ∧
    dredgeSampleSum (TSHD.handleEvent v sh clock e).entity =
      dredgeSampleSum v +
        (pendingDredgeVolumes (TSHD.handleEvent v sh clock e).newEvents
          v.entity_id).sum ∧
    (TSHD.handleEvent v sh clock e).entity.total_dredged =
      v.total_dredged + dcVolume e := by
  cases he : e.event_type
  case DREDGING_START =>
      rcases hsm : sh.segManager with - | m
      · refine ⟨?_, ?_, ?_⟩ <;>
          simp [TSHD.handleEvent, he, TSHD.startDredging, hsm,
            TSHD.startDredging.mkDredgingSample, dredgeSampleSum,
            dredgeVolumesOf, pendingDredgeVolumes, dcVolume, hcap]
      · rcases halloc : m.allocate v.config.hopper_capacity with - | ⟨alloc, mn⟩
        · refine ⟨?_, ?_, ?_⟩ <;>
            simp [TSHD.handleEvent, he, TSHD.startDredging, hsm, halloc,
              dredgeSampleSum, dredgeVolumesOf, pendingDredgeVolumes, dcVolume]
        · by_cases hvol : alloc.volume_m3 ≤ 0
          · refine ⟨?_, ?_, ?_⟩ <;>
              simp [TSHD.handleEvent, he, TSHD.startDredging, hsm, halloc,
                hvol, dredgeSampleSum, dredgeVolumesOf, pendingDredgeVolumes,
                dcVolume]
          · refine ⟨?_, ?_, ?_⟩ <;>
              simp [TSHD.handleEvent, he, TSHD.startDredging, hsm, halloc,
                hvol, TSHD.startDredging.mkDredgingSample, dredgeSampleSum,
                dredgeVolumesOf, pendingDredgeVolumes, dcVolume,
                le_of_not_le hvol]
  case DREDGING_COMPLETE =>
      obtain ⟨x, hx⟩ := Option.isSome_iff_exists.mp (hwf he)
      refine ⟨?_, ?_, ?_⟩ <;>
        simp [TSHD.handleEvent, he, TSHD.completeDredging, dredgeSampleSum,
          dredgeVolumesOf, pendingDredgeVolumes, dcVolume, hx]
  case MOVE_TO_DA_START =>
      refine ⟨?_, ?_, ?_⟩ <;>
        simp [TSHD.handleEvent, he, TSHD.startMoveToDa, dredgeSampleSum,
          dredgeVolumesOf, pendingDredgeVolumes, dcVolume]
  case MOVE_TO_DA_COMPLETE =>
      refine ⟨?_, ?_, ?_⟩ <;>
        simp [TSHD.handleEvent, he, TSHD.completeMoveToDa, dredgeSampleSum,
          dredgeVolumesOf, pendingDredgeVolumes, dcVolume]
  case DUMPING_START =>
      refine ⟨?_, ?_, ?_⟩ <;>
        simp [TSHD.handleEvent, he, TSHD.startDumping, dredgeSampleSum,
          dredgeVolumesOf, pendingDredgeVolumes, dcVolume]
  case DUMPING_COMPLETE =>
      refine ⟨?_, ?_, ?_⟩ <;>
        simp [TSHD.handleEvent, he, TSHD.completeDumping, dredgeSampleSum,
          dredgeVolumesOf, pendingDredgeVolumes, dcVolume]
  case MOVE_BACK_START =>
      refine ⟨?_, ?_, ?_⟩ <;>
        simp [TSHD.handleEvent, he, TSHD.startMoveBack, dredgeSampleSum,
          dredgeVolumesOf, pendingDredgeVolumes, dcVolume]
  case MOVE_BACK_COMPLETE =>
      refine ⟨?_, ?_, ?_⟩ <;>
        simp [TSHD.handleEvent, he, TSHD.completeMoveBack, dredgeSampleSum,
          dredgeVolumesOf, pendingDredgeVolumes, dcVolume]

/-- Accounting is preserved by processing one event, and no vessel\'s
`total_dredged` ever shrinks in the step. -/
theorem dispatch_accounting (s : SimState TSHD Shared) (e : Event)
    (rest : List Event) (hq : s.eventQueue = e :: rest)
    (hacc : DredgeAccounting s) :
    DredgeAccounting (dispatch tshdHandler { s with eventQueue := rest } e) ∧
    (∀ p2 ∈ (dispatch tshdHandler { s with eventQueue := rest } e).entities,
      ∃ p ∈ s.entities, p.1 = p2.1 ∧
        p.2.total_dredged ≤ p2.2.total_dredged) := by
  obtain ⟨hnd, hkeys, hwfq, hsums⟩ := hacc
  have hwfe := hwfq e (by rw [hq]; exact List.mem_cons_self e rest)
  have hwfr : ∀ e2 ∈ rest, e2.event_type = EventType.DREDGING_COMPLETE →
      e2.data.allocated_volume_m3.isSome = true ∧
      0 ≤ e2.data.allocated_volume_m3.getD 0 :=
    fun e2 he2 => hwfq e2 (by rw [hq]; exact List.mem_cons_of_mem e he2)
  have hlook : lookupEntity ({ s with eventQueue := rest } :
      SimState TSHD Shared) e.entity_id = lookupEntity s e.entity_id := rfl
  rcases hl : lookupEntity s e.entity_id with - | ent
  · -- unknown owner: the event is dropped
    rw [dispatch_of_absent _ _ _ (hlook.trans hl)]
    have hne := lookupEntity_none hl
    refine ⟨⟨hnd, hkeys, hwfr, ?_⟩, ?_⟩
    · intro p hp
      obtain ⟨hcap, hsum⟩ := hsums p hp
      refine ⟨hcap, ?_⟩
      rw [hq, pendingDredgeVolumes_cons,
        if_neg (fun hc => hne p hp hc.1.symm), List.nil_append] at hsum
      exact hsum
    · intro p2 hp2
      exact ⟨p2, hp2, rfl, le_refl _⟩
  · -- registered owner: the handler runs
    rw [dispatch_of_present _ _ _ ent (hlook.trans hl)]
    simp only [tshdHandler]
    obtain ⟨pf, hpf, hpfid, hpfval⟩ := lookupEntity_find hl
    have hcapf : 0 ≤ ent.config.hopper_capacity := by
      rw [← hpfval]
      exact (hsums pf hpf).1
    obtain ⟨hwfnew, hsample, htotal⟩ :=
      handleEvent_accounting ent s.shared e.time e hcapf
        (fun hdc => (hwfe hdc).1)
    have hframe := handleEvent_frame ent s.shared e.time e
    have hentid : ent.entity_id = e.entity_id := by
      rw [← hpfval, hkeys pf hpf, hpfid]
    rw [hentid] at hsample
    have hnewids : ∀ e2 ∈ (TSHD.handleEvent ent s.shared e.time e).newEvents,
        e2.entity_id = e.entity_id := by
      intro e2 he2
      rw [← hentid]
      exact hframe.2.2.1 e2 he2
    have hdc0 : 0 ≤ dcVolume e := by
      rw [dcVolume]
      split
      · exact (hwfe (by assumption)).2
      · exact le_refl 0
    refine ⟨⟨?_, ?_, ?_, ?_⟩, ?_⟩
    · simpa [updateEntity_keys] using hnd
    · intro p2 hp2
      simp only [updateEntity, List.mem_map] at hp2
      obtain ⟨pr, hpr, hpe⟩ := hp2
      by_cases hid : pr.1 = e.entity_id
      · rw [if_pos hid] at hpe
        subst hpe
        dsimp only
        rw [hframe.1, hentid, hid]
      · rw [if_neg hid] at hpe
        subst hpe
        exact hkeys pr hpr
    · intro e2 he2 hdc
      rcases mem_pushAll.mp he2 with he2 | he2
      · exact hwfr e2 he2 hdc
      · exact hwfnew e2 he2 hdc
    · intro p2 hp2
      simp only [updateEntity, List.mem_map] at hp2
      obtain ⟨pr, hpr, hpe⟩ := hp2
      obtain ⟨hcapr, hsumr⟩ := hsums pr hpr
      rw [hq, pendingDredgeVolumes_cons] at hsumr
      by_cases hid : pr.1 = e.entity_id
      · -- the handled vessel
        have hlookpr := lookup_of_mem_nodup hnd hpr
        rw [hid, hl] at hlookpr
        have hprval : ent = pr.2 := Option.some.inj hlookpr
        rw [if_pos hid] at hpe
        subst hpe
        dsimp only
        constructor
        · rw [hframe.2.1, hprval]
          exact hcapr
        · rw [hid] at hsumr
          rw [← hprval] at hsumr
          rw [pending_sum_pushAll, hsample, htotal, hid]
          by_cases hdc : e.event_type = EventType.DREDGING_COMPLETE
          · rw [if_pos ⟨rfl, hdc⟩] at hsumr
            rw [dcVolume, if_pos hdc]
            rw [hsumr]
            simp only [List.singleton_append, List.sum_cons]
            ring
          · rw [if_neg (fun hc => hdc hc.2)] at hsumr
            rw [dcVolume, if_neg hdc]
            rw [hsumr]
            simp only [List.nil_append]
            ring
      · -- an untouched vessel
        rw [if_neg hid] at hpe
        subst hpe
        refine ⟨hcapr, ?_⟩
        rw [if_neg (fun hc => hid hc.1.symm), List.nil_append] at hsumr
        rw [pending_sum_pushAll,
          @pendingDredgeVolumes_eq_nil
            ((TSHD.handleEvent ent s.shared e.time e).newEvents)
            pr.1
            (by
              intro e2 he2 hc
              refine hid ?_
              rw [← hc]
              exact hnewids e2 he2)]
        simpa using hsumr
    · intro p2 hp2
      simp only [updateEntity, List.mem_map] at hp2
      obtain ⟨pr, hpr, hpe⟩ := hp2
      by_cases hid : pr.1 = e.entity_id
      · have hlookpr := lookup_of_mem_nodup hnd hpr
        rw [hid, hl] at hlookpr
        have hprval : ent = pr.2 := Option.some.inj hlookpr
        rw [if_pos hid] at hpe
        subst hpe
        refine ⟨pr, hpr, rfl, ?_⟩
        dsimp only
        rw [htotal, ← hprval]
        linarith
      · rw [if_neg hid] at hpe
        subst hpe
        exact ⟨pr, hpr, rfl, le_refl _⟩

/-- Accounting is a run invariant, and `total_dredged` never shrinks across
a run. -/
theorem runAux_accounting :
    ∀ (n : ℕ) (endT : Option ℚ) (s : SimState TSHD Shared),
      DredgeAccounting s →
      DredgeAccounting (runAux tshdHandler n endT s).1 ∧
      ∀ p2 ∈ (runAux tshdHandler n endT s).1.entities,
        ∃ p ∈ s.entities, p.1 = p2.1 ∧
          p.2.total_dredged ≤ p2.2.total_dredged := by
  intro n
  induction n with
  | zero =>
      exact fun endT s hacc =>
        ⟨hacc, fun p2 hp2 => ⟨p2, hp2, rfl, le_refl _⟩⟩
  | succ n ih =>
      intro endT s hacc
      obtain ⟨clk, q, ents, st, run, shr⟩ := s
      rcases q with - | ⟨e, rest⟩
      · exact ⟨hacc, fun p2 hp2 => ⟨p2, hp2, rfl, le_refl _⟩⟩
      · rcases run with - | -
        · exact ⟨hacc, fun p2 hp2 => ⟨p2, hp2, rfl, le_refl _⟩⟩
        · simp only [runAux]
          by_cases hcap : truthy endT = true ∧ endT.getD 0 < e.time
          · rw [if_pos hcap]
            obtain ⟨hnd, hkeys, hwfq, hsums⟩ := hacc
            refine ⟨⟨hnd, hkeys, ?_, ?_⟩,
              fun p2 hp2 => ⟨p2, hp2, rfl, le_refl _⟩⟩
            · intro e2 he2 hdc
              rcases mem_insertSorted.mp he2 with rfl | he2
              · exact hwfq e2 (List.mem_cons_self e2 rest) hdc
              · exact hwfq e2 (List.mem_cons_of_mem e he2) hdc
            · intro p hp
              refine ⟨(hsums p hp).1, ?_⟩
              rw [(pendingDredgeVolumes_perm
                (insertSorted_perm e rest) p.1).sum_eq]
              exact (hsums p hp).2
          · rw [if_neg hcap]
            obtain ⟨hstep, hmono⟩ :=
              dispatch_accounting ⟨clk, e :: rest, ents, st, true, shr⟩ e
                rest rfl hacc
            obtain ⟨hrun, hrmono⟩ := ih endT _ hstep
            refine ⟨hrun, ?_⟩
            intro p2 hp2
            obtain ⟨pm, hpm, hpmid, hpmle⟩ := hrmono p2 hp2
            obtain ⟨p, hp, hpid, hple⟩ := hmono pm hpm
            exact ⟨p, hp, hpid.trans hpmid, le_trans hple hpmle⟩

/-- C5 (amended: at any instant, a vessel's `total_dredged` equals the sum
of the volumes in its dredging samples **minus the in-flight loads** — the
volumes of its `DREDGING_COMPLETE` events still queued — because the sample
is logged when dredging starts while `total_dredged` is incremented when it
completes; the two agree exactly when no dredging completion is pending.
`total_dredged` itself is non-decreasing across any run). -/
theorem c5_total_dredged_accounting :
    (∀ (n : ℕ) (endT : Option ℚ) (s : SimState TSHD Shared),
      DredgeAccounting s →
      DredgeAccounting (runAux tshdHandler n endT s).1 ∧
      ∀ p2 ∈ (runAux tshdHandler n endT s).1.entities,
        ∃ p ∈ s.entities, p.1 = p2.1 ∧
          p.2.total_dredged ≤ p2.2.total_dredged) ∧
    (∀ (s : SimState TSHD Shared), DredgeAccounting s →
      ∀ p ∈ s.entities,
        dredgeSampleSum p.2 =
          p.2.total_dredged + (pendingDredgeVolumes s.eventQueue p.1).sum ∧
        (pendingDredgeVolumes s.eventQueue p.1 = [] →
          dredgeSampleSum p.2 = p.2.total_dredged)) := by
  refine ⟨runAux_accounting, ?_⟩
  intro s hacc p hp
  obtain ⟨-, -, -, hsums⟩ := hacc
  refine ⟨(hsums p hp).2, ?_⟩
  intro hnil
  rw [(hsums p hp).2, hnil]
  simp

/-- Witness for C5: the accounting invariant holds after running the
one-vessel probe simulation up to a horizon inside the first dredge. -/
theorem c5_witness :
    DredgeAccounting (runAux tshdHandler 2 (some (1/20)) floorProbeSim).1 ∧
    ∀ p2 ∈ (runAux tshdHandler 2 (some (1/20)) floorProbeSim).1.entities,
      ∃ p ∈ floorProbeSim.entities, p.1 = p2.1 ∧
        p.2.total_dredged ≤ p2.2.total_dredged :=
  c5_total_dredged_accounting.1 2 (some (1/20)) floorProbeSim
    (by
      refine ⟨by decide, by decide, by decide, by decide⟩)

/-- Counterexample for C5 as stated: capping the run in the middle of the
first dredge leaves `total_dredged = 0` while the event log already holds a
dredging sample of volume 5000, so the two are not equal at that point. -/
theorem c5_counterexample_midcycle :
    (runSim tshdHandler 2 (some (1/20)) floorProbeSim).1.entities.map
        (fun p => (dredgeSampleSum p.2, p.2.total_dredged)) = [(5000, 0)] ∧
    ((5000:ℚ) = 0 → False) := by
  decide

/-! ## Claim C10: the unbounded run never returns -/

/-- The liveness invariant of a fleet simulation without a segment manager:
keys are consistent, every queued event's owner is registered, some queued
event is of a spawning type, and there is no segment manager. -/
def FleetLive (s : SimState TSHD Shared) : Prop :=
  (∀ p ∈ s.entities, p.2.entity_id = p.1) ∧
  (∀ e ∈ s.eventQueue, (lookupEntity s e.entity_id).isSome = true) ∧
  (∃ e ∈ s.eventQueue, spawning e.event_type = true) ∧
  s.shared.segManager = none

theorem find_pair_updateEntity_isSome {ε : Type} (eid : String) (x : ε)
    (l : List (String × ε)) (id2 : String) :
    ((updateEntity eid x l).find? (fun q => q.1 = id2)).isSome =
      (l.find? (fun q => q.1 = id2)).isSome := by
  induction l with
  | nil => rfl
  | cons q l ih =>
      rw [updateEntity, List.map_cons]
      by_cases hq : q.1 = id2
      · have hq2 : ((if q.1 = eid then (q.1, x) else q) : String × ε).1 = id2 := by
          split <;> simpa using hq
        rw [List.find?_cons_of_pos _ (by simpa using hq2),
          List.find?_cons_of_pos _ (by simpa using hq)]
        rfl
      · have hq2 : ¬ ((if q.1 = eid then (q.1, x) else q) : String × ε).1 = id2 := by
          split <;> simpa using hq
        rw [List.find?_cons_of_neg _ (by simpa using hq2),
          List.find?_cons_of_neg _ (by simpa using hq)]
        exact ih

/-- Processing one event of a live no-segment fleet keeps it live, and its
queue non-empty. -/
theorem dispatch_live (s : SimState TSHD Shared) (e : Event)
    (rest : List Event) (hq : s.eventQueue = e :: rest) (hlive : FleetLive s) :
    FleetLive (dispatch tshdHandler { s with eventQueue := rest } e) ∧
    (dispatch tshdHandler { s with eventQueue := rest } e).eventQueue ≠ [] := by
  obtain ⟨hkeys, hreg, ⟨ew, hew, hspw⟩, hseg⟩ := hlive
  obtain ⟨ent, hl⟩ := Option.isSome_iff_exists.mp
    (hreg e (by rw [hq]; exact List.mem_cons_self e rest))
  have hlook : lookupEntity ({ s with eventQueue := rest } :
      SimState TSHD Shared) e.entity_id = lookupEntity s e.entity_id := rfl
  rw [dispatch_of_present _ _ _ ent (hlook.trans hl)]
  simp only [tshdHandler]
  obtain ⟨pf, hpf, hpfid, hpfval⟩ := lookupEntity_find hl
  have hframe := handleEvent_frame ent s.shared e.time e
  have hentid : ent.entity_id = e.entity_id := by
    rw [← hpfval, hkeys pf hpf, hpfid]
  have hlookinv : ∀ id2 : String,
      ((updateEntity e.entity_id
          (TSHD.handleEvent ent s.shared e.time e).entity
          s.entities).find? (fun q => q.1 = id2)).isSome =
        (s.entities.find? (fun q => q.1 = id2)).isSome :=
    fun id2 => find_pair_updateEntity_isSome ..
  have hnewreg : ∀ e2 ∈ (TSHD.handleEvent ent s.shared e.time e).newEvents,
      (s.entities.find? (fun q => q.1 = e2.entity_id)).isSome = true := by
    intro e2 he2
    rw [hframe.2.2.1 e2 he2, hentid]
    have := hreg e (by rw [hq]; exact List.mem_cons_self e rest)
    rw [lookupEntity] at this
    simpa using this
  constructor
  · refine ⟨?_, ?_, ?_, hframe.2.2.2.1 hseg⟩
    · intro p2 hp2
      simp only [updateEntity, List.mem_map] at hp2
      obtain ⟨pr, hpr, hpe⟩ := hp2
      by_cases hid : pr.1 = e.entity_id
      · rw [if_pos hid] at hpe
        subst hpe
        dsimp only
        rw [hframe.1, hentid, hid]
      · rw [if_neg hid] at hpe
        subst hpe
        exact hkeys pr hpr
    · intro e2 he2
      rw [lookupEntity]
      rw [Option.isSome_map']
      rw [hlookinv e2.entity_id]
      rcases mem_pushAll.mp he2 with he2 | he2
      · have := hreg e2 (by rw [hq]; exact List.mem_cons_of_mem e he2)
        rw [lookupEntity] at this
        simpa using this
      · exact hnewreg e2 he2
    · by_cases hspe : spawning e.event_type = true
      · obtain ⟨e2, he2, hsp2⟩ := hframe.2.2.2.2 hseg hspe
        exact ⟨e2, mem_pushAll.mpr (Or.inr he2), hsp2⟩
      · rcases List.mem_cons.mp (hq ▸ hew) with rfl | hew2
        · exact absurd hspw hspe
        · exact ⟨ew, mem_pushAll.mpr (Or.inl hew2), hspw⟩
  · intro hnil
    have hmem : ∀ x : Event,
        x ∈ pushAll rest (TSHD.handleEvent ent s.shared e.time e).newEvents →
        False := by
      intro x hx
      rw [show pushAll rest
          (TSHD.handleEvent ent s.shared e.time e).newEvents = []
        from hnil] at hx
      simp at hx
    by_cases hspe : spawning e.event_type = true
    · obtain ⟨e2, he2, -⟩ := hframe.2.2.2.2 hseg hspe
      exact hmem e2 (mem_pushAll.mpr (Or.inr he2))
    · rcases List.mem_cons.mp (hq ▸ hew) with rfl | hew2
      · exact absurd hspw hspe
      · exact hmem ew (mem_pushAll.mpr (Or.inl hew2))

theorem runAux_none_no_exit :
    ∀ (n : ℕ) (s : SimState TSHD Shared), FleetLive s → s.running = true →
      (runAux tshdHandler n none s).2 = false := by
  intro n
  induction n with
  | zero => exact fun s hlive hrun => rfl
  | succ n ih =>
      intro s hlive hrun
      obtain ⟨clk, q, ents, st, run, shr⟩ := s
      rcases q with - | ⟨e, rest⟩
      · obtain ⟨-, -, ⟨ew, hew, -⟩, -⟩ := hlive
        simp at hew
      · simp only at hrun
        subst hrun
        simp only [runAux]
        rw [if_neg (by simp [truthy])]
        obtain ⟨hlive2, -⟩ :=
          dispatch_live ⟨clk, e :: rest, ents, st, true, shr⟩ e rest rfl hlive
        refine ih _ hlive2 ?_
        rw [dispatch_running]

/-- C10 (amended: not every handler schedules a follow-up — the three
`*_START` handlers schedule nothing — but the `DREDGING_START` and
`*_COMPLETE` handlers always do when no segment manager is attached, and a
`*_START` event is only ever queued alongside its already-scheduled
completion; so every step of a live fleet keeps the queue non-empty, and
`run` with the default `end_time = None` never returns). -/
theorem c10_unbounded_run_never_returns :
    (∀ (s : SimState TSHD Shared) (e : Event) (rest : List Event),
      s.eventQueue = e :: rest → FleetLive s →
      FleetLive (dispatch tshdHandler { s with eventQueue := rest } e) ∧
      (dispatch tshdHandler { s with eventQueue := rest } e).eventQueue ≠ []) ∧
    (∀ (n : ℕ) (s : SimState TSHD Shared), FleetLive s →
      (runSim tshdHandler n none s).2 = false) := by
  refine ⟨dispatch_live, ?_⟩
  intro n s hlive
  exact runAux_none_no_exit n { s with running := true } hlive rfl

/-- Witness for C10: the one-vessel fleet simulation is live, and `run`
with no bound does not return within any amount of fuel (here 6 steps). -/
theorem c10_witness :
    (runSim tshdHandler 6 none floorProbeSim).2 = false :=
  c10_unbounded_run_never_returns.2 6 floorProbeSim
    ⟨by decide, by decide, by decide, by decide⟩

/-- Counterexample for C10 as stated: the `MOVE_TO_DA_START` handler (like
the other `*_START` handlers) schedules no follow-up event at all, so the
claim that every vessel event handler schedules at least one follow-up is
false. -/
theorem c10_counterexample_start_handler :
    (TSHD.handleEvent (initVessel "A" {}) { segManager := none, rng := [] } 0
      { time := 0
        event_type := EventType.MOVE_TO_DA_START
        entity_id := "A" }).newEvents = [] := by
  decide

/-! ## Claim C6: resumable bounded execution -/

/-- Event timestamps in the queue are pairwise distinct and increasing
(so the popped minimum is unique and a pushed-back event returns to the
front). -/
def StrictQueue (q : List Event) : Prop :=
  q.Pairwise (fun a b => a.time < b.time)

/-- Repeated `run` calls on the same engine, one per bound, stopping early
if the fuel ever runs out. -/
def runSeqAux {ε κ : Type} (h : Handler ε κ) (fuel : ℕ) :
    List ℚ → SimState ε κ → SimState ε κ × Bool
  | [], s => (s, true)
  | u :: us, s =>
      match runSim h fuel (some u) s with
      | (s2, true) => runSeqAux h fuel us s2
      | (s2, false) => (s2, false)

/-- A completed run is insensitive to extra fuel. -/
theorem runAux_mono {ε κ : Type} (h : Handler ε κ) :
    ∀ (n m : ℕ) (u : Option ℚ) (s s2 : SimState ε κ), n ≤ m →
      runAux h n u s = (s2, true) → runAux h m u s = (s2, true) := by
  intro n
  induction n with
  | zero =>
      intro m u s s2 hnm heq
      exact absurd (congrArg Prod.snd heq) (by simp [runAux])
  | succ n ih =>
      intro m u s s2 hnm heq
      rcases m with - | m
      · omega
      · obtain ⟨clk, q, ents, st, run, shr⟩ := s
        rcases q with - | ⟨e, rest⟩
        · exact heq
        · rcases run with - | -
          · exact heq
          · simp only [runAux] at heq ⊢
            by_cases hcap : truthy u = true ∧ u.getD 0 < e.time
            · rw [if_pos hcap] at heq ⊢
              exact heq
            · rw [if_neg hcap] at heq ⊢
              exact ih m u _ s2 (by omega) heq

/-- `dispatch` only overwrites the clock, so the pre-dispatch clock is
irrelevant. -/
theorem dispatch_clock_irrel {ε κ : Type} (h : Handler ε κ)
    (s : SimState ε κ) (e : Event) (c : ℚ) :
    dispatch h { s with clock := c } e = dispatch h s e := by
  obtain ⟨clk, q, ents, st, run, shr⟩ := s
  rcases hl : lookupEntity
      (⟨c, q, ents, st, run, shr⟩ : SimState ε κ) e.entity_id with - | ent <;>
    rcases hl2 : lookupEntity
      (⟨clk, q, ents, st, run, shr⟩ : SimState ε κ) e.entity_id with - | ent2 <;>
    rw [lookupEntity] at hl hl2 <;> simp only at hl hl2 <;>
    rw [hl] at hl2
  · simp [dispatch, lookupEntity, hl, hl2]
  · exact absurd hl2 (by simp)
  · exact absurd hl2 (by simp)
  · rw [Option.some.injEq] at hl2
    subst hl2
    simp [dispatch, lookupEntity, hl]

/-- Under a handler that preserves strictly sorted queues, so does the
whole run loop. -/
theorem runAux_strict {ε κ : Type} (h : Handler ε κ)
    (Hpres : ∀ (s : SimState ε κ) (e : Event),
      StrictQueue (e :: s.eventQueue) → StrictQueue (dispatch h s e).eventQueue) :
    ∀ (n : ℕ) (u : Option ℚ) (s : SimState ε κ),
      StrictQueue s.eventQueue → StrictQueue (runAux h n u s).1.eventQueue := by
  intro n
  induction n with
  | zero => exact fun u s hs => hs
  | succ n ih =>
      intro u s hs
      obtain ⟨clk, q, ents, st, run, shr⟩ := s
      rcases q with - | ⟨e, rest⟩
      · exact hs
      · rcases run with - | -
        · exact hs
        · simp only [runAux]
          by_cases hcap : truthy u = true ∧ u.getD 0 < e.time
          · rw [if_pos hcap]
            rw [insertSorted_of_forall_lt (List.pairwise_cons.mp hs).1]
            exact hs
          · rw [if_neg hcap]
            exact ih u _ (Hpres ⟨clk, rest, ents, st, true, shr⟩ e hs)

/-- One-step unfolding of the loop: empty queue. -/
theorem runAux_succ_nil {ε κ : Type} (h : Handler ε κ) (n : ℕ)
    (endT : Option ℚ) (clk : ℚ) (ents : List (String × ε)) (st : Stats)
    (r : Bool) (shr : κ) :
    runAux h (Nat.succ n) endT (⟨clk, [], ents, st, r, shr⟩ : SimState ε κ) =
      ((⟨clk, [], ents, st, false, shr⟩ : SimState ε κ), true) := rfl

/-- One-step unfolding of the loop: non-empty queue, running. -/
theorem runAux_succ_cons {ε κ : Type} (h : Handler ε κ) (n : ℕ)
    (endT : Option ℚ) (clk : ℚ) (e : Event) (rest : List Event)
    (ents : List (String × ε)) (st : Stats) (shr : κ) :
    runAux h (Nat.succ n) endT
        (⟨clk, e :: rest, ents, st, true, shr⟩ : SimState ε κ) =
      if truthy endT = true ∧ endT.getD 0 < e.time then
        ((⟨endT.getD 0, insertSorted e rest, ents, st, false, shr⟩ :
          SimState ε κ), true)
      else
        runAux h n endT
          (dispatch h (⟨clk, rest, ents, st, true, shr⟩ : SimState ε κ) e) :=
  rfl

/-- Composition of runs at the loop level: a completed run to `u` followed
by a completed run to `T ≥ u` is a completed run to `T`. -/
theorem runAux_comp {ε κ : Type} (h : Handler ε κ)
    (Hpres : ∀ (s : SimState ε κ) (e : Event),
      StrictQueue (e :: s.eventQueue) → StrictQueue (dispatch h s e).eventQueue)
    (u T : ℚ) (hu : u ≠ 0) (hT : T ≠ 0) (huT : u ≤ T) :
    ∀ (N M : ℕ) (s s1 s2 : SimState ε κ), s.running = true →
      StrictQueue s.eventQueue →
      runAux h N (some u) s = (s1, true) →
      runAux h M (some T) { s1 with running := true } = (s2, true) →
      runAux h (N + M) (some T) s = (s2, true) := by
  intro N
  induction N with
  | zero =>
      intro M s s1 s2 hrun hs h1 h2
      exact absurd (congrArg Prod.snd h1) (by simp [runAux])
  | succ N ih =>
      intro M s s1 s2 hrun hs h1 h2
      obtain ⟨clk, q, ents, st, run, shr⟩ := s
      simp only at hrun
      subst hrun
      rw [show N + 1 + M = Nat.succ (N + M) from by omega]
      rcases q with - | ⟨e, rest⟩
      · -- queue already empty: the first run is a no-op
        rw [runAux_succ_nil] at h1
        have hs1 : s1 = ⟨clk, [], ents, st, false, shr⟩ :=
          ((Prod.mk.injEq ..).mp h1).1.symm
        subst hs1
        rcases M with - | M
        · exact absurd (congrArg Prod.snd h2) (by simp [runAux])
        · rw [show ({ (⟨clk, [], ents, st, false, shr⟩ : SimState ε κ) with
              running := true } : SimState ε κ) =
              ⟨clk, [], ents, st, true, shr⟩ from rfl,
            runAux_succ_nil] at h2
          rw [runAux_succ_nil]
          exact h2
      · have hel : ∀ x ∈ rest, e.time < x.time := (List.pairwise_cons.mp hs).1
        have htru : truthy (some u) = true := by simp [truthy, hu]
        have htrT : truthy (some T) = true := by simp [truthy, hT]
        by_cases hcap : u < e.time
        · -- the first run capped at u
          rw [runAux_succ_cons,
            if_pos ⟨htru, by rw [Option.getD_some]; exact hcap⟩,
            Option.getD_some, insertSorted_of_forall_lt hel] at h1
          have hs1 : s1 = ⟨u, e :: rest, ents, st, false, shr⟩ :=
            ((Prod.mk.injEq ..).mp h1).1.symm
          subst hs1
          rcases M with - | M
          · exact absurd (congrArg Prod.snd h2) (by simp [runAux])
          · rw [show ({ (⟨u, e :: rest, ents, st, false, shr⟩ :
                SimState ε κ) with running := true } : SimState ε κ) =
                ⟨u, e :: rest, ents, st, true, shr⟩ from rfl,
              runAux_succ_cons] at h2
            rw [runAux_succ_cons]
            by_cases hcapT : T < e.time
            · rw [if_pos ⟨htrT, by rw [Option.getD_some]; exact hcapT⟩] at h2 ⊢
              exact h2
            · rw [if_neg (fun hc => hcapT (by
                  rw [Option.getD_some] at hc
                  exact hc.2))] at h2 ⊢
              rw [dispatch_clock_irrel h
                (⟨clk, rest, ents, st, true, shr⟩ : SimState ε κ) e u] at h2
              exact runAux_mono h M (N + (M + 1)) (some T) _ s2 (by omega) h2
        · -- the first run processed e
          rw [runAux_succ_cons,
            if_neg (fun hc => hcap (by
              rw [Option.getD_some] at hc
              exact hc.2))] at h1
          rw [runAux_succ_cons,
            if_neg (fun hc => by
              rw [Option.getD_some] at hc
              exact absurd hc.2
                (not_lt.mpr (le_trans (not_lt.mp hcap) huT)))]
          refine ih M _ s1 s2 ?_ ?_ h1 h2
          · rw [dispatch_running]
          · exact Hpres (⟨clk, rest, ents, st, true, shr⟩ : SimState ε κ) e hs

/-- Composition at the `run` level. -/
theorem runSim_comp {ε κ : Type} (h : Handler ε κ)
    (Hpres : ∀ (s : SimState ε κ) (e : Event),
      StrictQueue (e :: s.eventQueue) → StrictQueue (dispatch h s e).eventQueue)
    (u T : ℚ) (hu : u ≠ 0) (hT : T ≠ 0) (huT : u ≤ T)
    (N M : ℕ) (s s1 s2 : SimState ε κ) (hs : StrictQueue s.eventQueue)
    (h1 : runSim h N (some u) s = (s1, true))
    (h2 : runSim h M (some T) s1 = (s2, true)) :
    runSim h (N + M) (some T) s = (s2, true) :=
  runAux_comp h Hpres u T hu hT huT N M { s with running := true } s1 s2
    rfl hs h1 h2

/-- C6 (amended: the bounds must be nonzero — Python treats a 0.0 bound as
`None`, running unbounded — and event timestamps must stay pairwise
distinct, which the `Hpres` hypothesis expresses; a put-back can reorder
same-time events otherwise).  Running the engine repeatedly with any
sequence of nonzero bounds each at most `T` and ending at `T` yields
exactly the same final state (clock, queue, entities with their logs and
statistics) as one `run(T)`, with enough fuel. -/
theorem c6_resumable_runs {ε κ : Type} (h : Handler ε κ)
    (Hpres : ∀ (s : SimState ε κ) (e : Event),
      StrictQueue (e :: s.eventQueue) → StrictQueue (dispatch h s e).eventQueue)
    (T : ℚ) (hT : T ≠ 0) (bounds : List ℚ)
    (hlast : bounds.getLast? = some T)
    (hb : ∀ u ∈ bounds, u ≠ 0 ∧ u ≤ T)
    (fuel : ℕ) (s s2 : SimState ε κ) (hstrict : StrictQueue s.eventQueue)
    (hrun : runSeqAux h fuel bounds s = (s2, true)) :
    ∃ K, runSim h K (some T) s = (s2, true) := by
  induction bounds generalizing s with
  | nil => exact absurd hlast (by simp)
  | cons u us ih =>
      rcases hr1 : runSim h fuel (some u) s with ⟨sm, b⟩
      rcases b with - | -
      · rw [runSeqAux, hr1] at hrun
        exact absurd (congrArg Prod.snd hrun) (by simp)
      · rw [runSeqAux, hr1] at hrun
        rcases us with - | ⟨v, vs⟩
        · -- last bound: u = T
          have huT : u = T := by simpa using hlast
          subst huT
          simp only [runSeqAux] at hrun
          have hsm : sm = s2 := ((Prod.mk.injEq ..).mp hrun).1
          subst hsm
          exact ⟨fuel, hr1⟩
        · have hsm : StrictQueue sm.eventQueue := by
            have := runAux_strict h Hpres fuel (some u)
              { s with running := true } hstrict
            rw [show runAux h fuel (some u) { s with running := true } =
              (sm, true) from hr1] at this
            exact this
          obtain ⟨K, hK⟩ := ih (by simpa using hlast)
            (fun w hw => hb w (List.mem_cons_of_mem u hw)) sm hsm hrun
          exact ⟨fuel + K,
            runSim_comp h Hpres u T (hb u (List.mem_cons_self u _)).1 hT
              (hb u (List.mem_cons_self u _)).2 fuel K s sm s2 hstrict
              hr1 hK⟩

/-- Witness for C6: running the probe engine with bounds `[2, 5]` equals a
single run to 5 — both cap at the horizon with the event at 7 intact. -/
theorem c6_witness :
    ∃ K, runSim unitHandler K (some 5) (probeState 7) =
      ({ probeState 7 with clock := 5, running := false }, true) :=
  c6_resumable_runs unitHandler
    (fun s e hs => by
      rw [dispatch_queue]
      have hnew : dispatchNew unitHandler s e = [] := by
        rw [dispatchNew]
        split
        · rfl
        · rfl
      rw [hnew]
      exact (List.pairwise_cons.mp hs).2)
    5 (by decide) [2, 5] (by decide) (by decide) 2
    (probeState 7) ({ probeState 7 with clock := 5, running := false })
    (by rw [StrictQueue]; decide) (by decide)

/-- Counterexample for C6 as stated: with the increasing bound sequence
`[0, 5]` ending at 5, the zero bound runs unbounded (Python falsiness of
`end_time`), consuming the event at time 7, so the final state differs
from the one of a single `run(5)`, which caps at 5. -/
theorem c6_counterexample_zero_bound :
    (runSeqAux unitHandler 3 [0, 5] (probeState 7)).1.clock = 7 ∧
    (runSim unitHandler 3 (some 5) (probeState 7)).1.clock = 5 ∧
    ¬ ((runSeqAux unitHandler 3 [0, 5] (probeState 7)).1 =
        (runSim unitHandler 3 (some 5) (probeState 7)).1) := by
  decide

/-! ## Claim C7: the campaign driver loop

Termination rests on the `quanta`/`evMeasure` measure: every completion
event a handler schedules lies at least `1/100` hours in the future (all
four duration clamps are at least `1/100`), and the same-time events it
schedules have strictly smaller rank, so the summed measure of the queue
strictly decreases at every processed event below the horizon. -/

theorem evRank_pos (t : EventType) : 1 ≤ evRank t := by
  cases t <;> simp [evRank]

theorem evRank_le (t : EventType) : evRank t ≤ 2 := by
  cases t <;> simp [evRank]

theorem quanta_pos {H t : ℚ} (h : t ≤ H) : 1 ≤ quanta H t := by
  rw [quanta]
  have h0 : (0:ℤ) ≤ Int.ceil (100 * (H - t)) :=
    Int.ceil_nonneg (by linarith)
  omega

theorem quanta_decrease {H t t2 : ℚ} (h2 : t + 1/100 ≤ t2) :
    quanta H t2 + 1 ≤ quanta H t ∨ quanta H t2 = 0 := by
  rw [quanta, quanta]
  have hc : Int.ceil (100 * (H - t2)) ≤ Int.ceil (100 * (H - t)) - 1 := by
    have : (100 : ℚ) * (H - t2) ≤ 100 * (H - t) - 1 := by linarith
    calc Int.ceil (100 * (H - t2)) ≤ Int.ceil (100 * (H - t) - 1) :=
          Int.ceil_le_ceil this
      _ = Int.ceil (100 * (H - t)) - 1 := by
          rw [show (1:ℚ) = ((1:ℤ):ℚ) from by norm_num, Int.ceil_sub_int]
  omega

/-- A spawned event strictly at least `1/100` later has strictly smaller
measure (provided the parent is below the horizon, so its quanta count is
positive). -/
theorem evMeasure_lt_of_delay {H : ℚ} {e e2 : Event} (he : e.time ≤ H)
    (ht : e.time + 1/100 ≤ e2.time) : evMeasure H e2 < evMeasure H e := by
  rw [evMeasure, evMeasure]
  have h1 := quanta_pos he
  have h2 := @quanta_decrease H e.time e2.time ht
  have hr1 := evRank_pos e.event_type
  have hr2 := evRank_le e2.event_type
  have hexp : 2 * quanta H e2.time + evRank e2.event_type <
      2 * quanta H e.time + evRank e.event_type := by omega
  exact Nat.pow_lt_pow_right (by norm_num) hexp

/-- A spawned event at the same time with strictly smaller rank has
strictly smaller measure. -/
theorem evMeasure_lt_of_rank {H : ℚ} {e e2 : Event}
    (ht : e2.time = e.time)
    (hr : evRank e2.event_type < evRank e.event_type) :
    evMeasure H e2 < evMeasure H e := by
  rw [evMeasure, evMeasure, ht]
  exact Nat.pow_lt_pow_right (by norm_num) (by omega)

/-- Every event a handler schedules has strictly smaller measure than the
event being handled (below the horizon), and there are at most two of
them. -/
theorem handleEvent_spawn_measure (H : ℚ) (v : TSHD) (sh : Shared)
    (e : Event) (he : e.time ≤ H) :
    (TSHD.handleEvent v sh e.time e).newEvents.length ≤ 2 ∧
    ∀ e2 ∈ (TSHD.handleEvent v sh e.time e).newEvents,
      evMeasure H e2 < evMeasure H e := by
  have hd100 : ∀ raw : ℚ, e.time + 1/100 ≤ e.time + max (1/100) raw := by
    intro raw
    have := le_max_left (1/100 : ℚ) raw
    linarith
  have hd10 : ∀ raw : ℚ, e.time + 1/100 ≤ e.time + max (1/10) raw := by
    intro raw
    have := le_max_left (1/10 : ℚ) raw
    linarith
  have hd20 : ∀ raw : ℚ, e.time + 1/100 ≤ e.time + max (1/20) raw := by
    intro raw
    have := le_max_left (1/20 : ℚ) raw
    linarith
  cases het : e.event_type
  case DREDGING_START =>
      rcases hsm : sh.segManager with - | m
      · constructor <;>
          simp only [TSHD.handleEvent, het, TSHD.startDredging, hsm,
            Option.map_none', TSHD.startDredging.mkDredgingSample]
        · simp
        · intro e2 he2
          simp only [List.mem_singleton] at he2
          subst he2
          exact evMeasure_lt_of_delay he (hd10 _)
      · rcases halloc : m.allocate v.config.hopper_capacity with - | ⟨alloc, mn⟩
        · constructor <;>
            simp [TSHD.handleEvent, het, TSHD.startDredging, hsm, halloc]
        · by_cases hvol : alloc.volume_m3 ≤ 0
          · constructor <;>
              simp [TSHD.handleEvent, het, TSHD.startDredging, hsm, halloc,
                hvol]
          · constructor <;>
              simp only [TSHD.handleEvent, het, TSHD.startDredging, hsm,
                Option.map_some', halloc, if_neg hvol,
                TSHD.startDredging.mkDredgingSample]
            · simp
            · intro e2 he2
              simp only [List.mem_singleton] at he2
              subst he2
              exact evMeasure_lt_of_delay he (hd10 _)
  case DREDGING_COMPLETE =>
      constructor <;>
        simp only [TSHD.handleEvent, het, TSHD.completeDredging]
      · simp
      · intro e2 he2
        simp only [List.mem_cons, List.mem_singleton, List.not_mem_nil,
          or_false] at he2
        rcases he2 with rfl | rfl
        · exact evMeasure_lt_of_rank rfl (by rw [het]; simp [evRank])
        · exact evMeasure_lt_of_delay he (hd100 _)
  case MOVE_TO_DA_START =>
      constructor <;> simp [TSHD.handleEvent, het, TSHD.startMoveToDa]
  case MOVE_TO_DA_COMPLETE =>
      constructor <;>
        simp only [TSHD.handleEvent, het, TSHD.completeMoveToDa]
      · simp
      · intro e2 he2
        simp only [List.mem_cons, List.mem_singleton, List.not_mem_nil,
          or_false] at he2
        rcases he2 with rfl | rfl
        · exact evMeasure_lt_of_rank rfl (by rw [het]; simp [evRank])
        · exact evMeasure_lt_of_delay he (hd20 _)
  case DUMPING_START =>
      constructor <;> simp [TSHD.handleEvent, het, TSHD.startDumping]
  case DUMPING_COMPLETE =>
      constructor <;>
        simp only [TSHD.handleEvent, het, TSHD.completeDumping]
      · simp
      · intro e2 he2
        simp only [List.mem_cons, List.mem_singleton, List.not_mem_nil,
          or_false] at he2
        rcases he2 with rfl | rfl
        · exact evMeasure_lt_of_rank rfl (by rw [het]; simp [evRank])
        · exact evMeasure_lt_of_delay he (hd100 _)
  case MOVE_BACK_START =>
      constructor <;> simp [TSHD.handleEvent, het, TSHD.startMoveBack]
  case MOVE_BACK_COMPLETE =>
      constructor <;>
        simp only [TSHD.handleEvent, het, TSHD.completeMoveBack]
      · simp
      · intro e2 he2
        simp only [List.mem_singleton] at he2
        subst he2
        exact evMeasure_lt_of_rank rfl (by rw [het]; simp [evRank])

/-- At most two powers of three, each below `3 ^ m`, sum to below `3 ^ m`. -/
theorem sum_pow3_lt (m : ℕ) (l : List ℕ) (hlen : l.length ≤ 2)
    (hmem : ∀ x ∈ l, (∃ k, x = 3 ^ k) ∧ x < 3 ^ m) : l.sum < 3 ^ m := by
  match l with
  | [] =>
      simpa using Nat.pos_pow_of_pos m (by norm_num)
  | [x] =>
      simpa using (hmem x (by simp)).2
  | [x, y] =>
      obtain ⟨⟨k1, rfl⟩, hx⟩ := hmem x (by simp)
      obtain ⟨⟨k2, rfl⟩, hy⟩ := hmem y (by simp)
      have hk1 : k1 < m := (Nat.pow_lt_pow_iff_right (by norm_num)).mp hx
      have hk2 : k2 < m := (Nat.pow_lt_pow_iff_right (by norm_num)).mp hy
      obtain ⟨mp, rfl⟩ : ∃ mp, m = mp + 1 := ⟨m - 1, by omega⟩
      have h1 : 3 ^ k1 ≤ 3 ^ mp := Nat.pow_le_pow_right (by norm_num) (by omega)
      have h2 : 3 ^ k2 ≤ 3 ^ mp := Nat.pow_le_pow_right (by norm_num) (by omega)
      have h3 : 1 ≤ 3 ^ mp := Nat.one_le_pow _ _ (by norm_num)
      have hsplit : 3 ^ (mp + 1) = 3 * 3 ^ mp := by
        rw [pow_succ]
        ring
      rw [hsplit]
      simp only [List.sum_cons, List.sum_nil]
      linarith
  | _ :: _ :: _ :: _ => simp at hlen

theorem queueMeasure_cons (H : ℚ) (e : Event) (q : List Event) :
    queueMeasure H (e :: q) = evMeasure H e + queueMeasure H q := by
  simp [queueMeasure]

theorem queueMeasure_pushAll (H : ℚ) (q new : List Event) :
    queueMeasure H (pushAll q new) = queueMeasure H q + queueMeasure H new := by
  rw [queueMeasure, ((pushAll_perm q new).map (evMeasure H)).sum_eq]
  simp [queueMeasure]

theorem queueMeasure_perm (H : ℚ) {q q2 : List Event} (hp : q.Perm q2) :
    queueMeasure H q = queueMeasure H q2 :=
  (hp.map (evMeasure H)).sum_eq

theorem evMeasure_pos (H : ℚ) (e : Event) : 0 < evMeasure H e :=
  Nat.pos_pow_of_pos _ (by norm_num)

/-- Processing an event below the horizon strictly decreases the queue
measure. -/
theorem dispatchNew_measure (H : ℚ) (s : SimState TSHD Shared) (e : Event)
    (he : e.time ≤ H) :
    queueMeasure H (dispatchNew tshdHandler s e) < evMeasure H e := by
  have hpos := evMeasure_pos H e
  rcases hl : lookupEntity s e.entity_id with - | ent
  · simp only [dispatchNew, hl]
    simpa [queueMeasure] using hpos
  · simp only [dispatchNew, hl, tshdHandler]
    have hspawn := handleEvent_spawn_measure H ent s.shared e he
    rw [queueMeasure, evMeasure]
    refine sum_pow3_lt _ _ (by simpa using hspawn.1) ?_
    intro x hx
    obtain ⟨e2, he2, rfl⟩ := List.mem_map.mp hx
    exact ⟨⟨_, rfl⟩, by
      have := hspawn.2 e2 he2
      rw [evMeasure] at this
      exact this⟩

/-- Processing an event below the horizon strictly decreases the queue
measure. -/
theorem dispatch_measure (H : ℚ) (s : SimState TSHD Shared) (e : Event)
    (rest : List Event) (he : e.time ≤ H) :
    queueMeasure H
        (dispatch tshdHandler { s with eventQueue := rest } e).eventQueue <
      queueMeasure H (e :: rest) := by
  rw [dispatch_queue, queueMeasure_pushAll, queueMeasure_cons]
  have hnew := dispatchNew_measure H { s with eventQueue := rest } e he
  dsimp only
  omega

/-- With fuel exceeding the queue measure, a bounded run of a live fleet
always completes, capped exactly at the horizon, and the fleet stays
live. -/
theorem runAux_reaches_horizon (H : ℚ) (hH : H ≠ 0) :
    ∀ (n : ℕ) (s : SimState TSHD Shared), FleetLive s → s.running = true →
      queueMeasure H s.eventQueue < n →
      (runAux tshdHandler n (some H) s).2 = true ∧
      (runAux tshdHandler n (some H) s).1.clock = H ∧
      FleetLive (runAux tshdHandler n (some H) s).1 := by
  intro n
  induction n with
  | zero => exact fun s hlive hrun hm => absurd hm (by omega)
  | succ n ih =>
      intro s hlive hrun hm
      obtain ⟨clk, q, ents, st, run, shr⟩ := s
      simp only at hrun
      subst hrun
      rcases q with - | ⟨e, rest⟩
      · obtain ⟨-, -, ⟨ew, hew, -⟩, -⟩ := hlive
        simp at hew
      · rw [runAux_succ_cons]
        by_cases hcap : H < e.time
        · rw [if_pos ⟨by simp [truthy, hH], by
            rw [Option.getD_some]
            exact hcap⟩]
          obtain ⟨hkeys, hreg, ⟨ew, hew, hspw⟩, hseg⟩ := hlive
          refine ⟨rfl, by rw [Option.getD_some], ?_, ?_, ?_, hseg⟩
          · exact hkeys
          · intro e2 he2
            exact hreg e2 (by
              rcases mem_insertSorted.mp he2 with rfl | he2
              · exact List.mem_cons_self e2 rest
              · exact List.mem_cons_of_mem e he2)
          · exact ⟨ew, mem_insertSorted.mpr (by
              rcases List.mem_cons.mp hew with rfl | hew2
              · exact Or.inl rfl
              · exact Or.inr hew2), hspw⟩
        · rw [if_neg (fun hc => hcap (by
            rw [Option.getD_some] at hc
            exact hc.2))]
          have he : e.time ≤ H := not_lt.mp hcap
          obtain ⟨hlive2, -⟩ :=
            dispatch_live ⟨clk, e :: rest, ents, st, true, shr⟩ e rest rfl
              hlive
          have hmeas := dispatch_measure H
            (⟨clk, e :: rest, ents, st, true, shr⟩ : SimState TSHD Shared)
            e rest he
          rw [queueMeasure_cons] at hm hmeas
          dsimp only at hmeas hlive2 ⊢
          refine ih _ hlive2 ?_ ?_
          · rw [dispatch_running]
          · omega

/-! ### The campaign driver loop -/

theorem insertSorted_zero (e : Event) (he : e.time = 0) :
    ∀ q : List Event, (∀ x ∈ q, x.time = 0) → insertSorted e q = q ++ [e] := by
  intro q
  induction q with
  | nil => intro hq; rfl
  | cons x xs ih =>
      intro hq
      rw [insertSorted, if_pos (by
        rw [he, hq x (List.mem_cons_self x xs)]),
        ih (fun y hy => hq y (List.mem_cons_of_mem x hy))]
      rfl

/-- The fleet-setup fold of `run_simulation_streamlit`, characterised: it
appends one registered vessel and one time-0 `DREDGING_START` event per
fleet row and touches nothing else. -/
theorem initFold_spec :
    ∀ (fleet : List (String × TSHDConfig)) (s : SimState TSHD Shared),
      (∀ x ∈ s.eventQueue, x.time = 0) →
      (fleet.foldl
        (fun s p =>
          let d := initVessel p.1 p.2
          TSHD.startWork d { s with entities := s.entities ++ [(p.1, d)] })
        s) =
      { s with
        entities := s.entities ++
          fleet.map (fun p => (p.1, initVessel p.1 p.2))
        eventQueue := s.eventQueue ++ fleet.map (fun p =>
          ({ time := 0
             event_type := EventType.DREDGING_START
             entity_id := p.1 } : Event)) } := by
  intro fleet
  induction fleet with
  | nil =>
      intro s hq
      simp
  | cons p fleet ih =>
      intro s hq
      obtain ⟨clk, q, ents, st, run, shr⟩ := s
      simp only at hq
      rw [List.foldl_cons]
      rw [ih _ (by
        intro x hx
        have hx2 : x ∈ insertSorted
            ({ time := 0
               event_type := EventType.DREDGING_START
               entity_id := p.1 } : Event) q := hx
        rcases mem_insertSorted.mp hx2 with rfl | hx3
        · rfl
        · exact hq x hx3)]
      simp only [TSHD.startWork, scheduleEvent]
      rw [insertSorted_zero _ rfl q hq]
      simp [initVessel]

/-- `initFleetSim` in closed form. -/
theorem initFleetSim_spec (fleet : List (String × TSHDConfig)) (rng : List ℚ) :
    initFleetSim fleet rng =
      { clock := 0
        eventQueue := fleet.map (fun p =>
          ({ time := 0
             event_type := EventType.DREDGING_START
             entity_id := p.1 } : Event))
        entities := fleet.map (fun p => (p.1, initVessel p.1 p.2))
        stats := {}
        running := false
        shared := { segManager := none, rng := rng } } := by
  rw [initFleetSim, initFold_spec fleet _ (by intro x hx; simp at hx)]
  simp

/-- A nonempty fleet simulation starts live. -/
theorem initFleetSim_live (fleet : List (String × TSHDConfig)) (rng : List ℚ)
    (hne : fleet ≠ []) : FleetLive (initFleetSim fleet rng) := by
  rw [initFleetSim_spec]
  obtain ⟨p0, fleet2, rfl⟩ : ∃ p0 f2, fleet = p0 :: f2 := by
    rcases fleet with - | ⟨p0, f2⟩
    · exact absurd rfl hne
    · exact ⟨p0, f2, rfl⟩
  refine ⟨?_, ?_, ?_, rfl⟩
  · intro p hp
    obtain ⟨q, hq, rfl⟩ := List.mem_map.mp hp
    rfl
  · intro e he
    obtain ⟨q, hq, rfl⟩ := List.mem_map.mp he
    rw [lookupEntity, Option.isSome_map', List.find?_isSome]
    exact ⟨(q.1, initVessel q.1 q.2), List.mem_map.mpr ⟨q, hq, rfl⟩, by simp⟩
  · exact ⟨{ time := 0
             event_type := EventType.DREDGING_START
             entity_id := p0.1 }, by simp, rfl⟩

/-- One-step unfolding of the driver loop. -/
theorem driverAux_succ (target step : ℚ) (n : ℕ) (curEnd : ℚ)
    (s : SimState TSHD Shared) :
    driverAux target step (n + 1) curEnd s =
      if target ≤ fleetTotalDredged ((runSim tshdHandler
            (queueMeasure curEnd s.eventQueue + 1) (some curEnd) s).1) ∨
          (24 * 365 : ℚ) ≤ ((runSim tshdHandler
            (queueMeasure curEnd s.eventQueue + 1) (some curEnd) s).1).clock
        then
        some ((runSim tshdHandler (queueMeasure curEnd s.eventQueue + 1)
          (some curEnd) s).1)
      else
        driverAux target step n (curEnd + step)
          ((runSim tshdHandler (queueMeasure curEnd s.eventQueue + 1)
            (some curEnd) s).1) := rfl

/-- With a positive step, a live fleet, and enough rounds to push the
horizon past the one-year cap, the driver loop returns, and its result
satisfies the stop condition. -/
theorem driverAux_terminates (target step : ℚ) (hstep : 0 < step) :
    ∀ (k : ℕ) (curEnd : ℚ) (s : SimState TSHD Shared), FleetLive s →
      0 < curEnd → (8760 : ℚ) ≤ curEnd + k * step →
      ∃ s2, driverAux target step (k + 1) curEnd s = some s2 ∧
        (target ≤ fleetTotalDredged s2 ∨ (24 * 365 : ℚ) ≤ s2.clock) := by
  intro k
  induction k with
  | zero =>
      intro curEnd s hlive hpos hcap
      have hrun := runAux_reaches_horizon curEnd (ne_of_gt hpos)
        (queueMeasure curEnd s.eventQueue + 1) { s with running := true }
        hlive rfl (Nat.lt_succ_self _)
      have hclk : ((runSim tshdHandler (queueMeasure curEnd s.eventQueue + 1)
          (some curEnd) s).1).clock = curEnd := hrun.2.1
      have hc : target ≤ fleetTotalDredged ((runSim tshdHandler
          (queueMeasure curEnd s.eventQueue + 1) (some curEnd) s).1) ∨
          (24 * 365 : ℚ) ≤ ((runSim tshdHandler
            (queueMeasure curEnd s.eventQueue + 1) (some curEnd) s).1).clock := by
        refine Or.inr ?_
        rw [hclk]
        push_cast at hcap
        linarith
      rw [driverAux_succ, if_pos hc]
      exact ⟨_, rfl, hc⟩
  | succ k ih =>
      intro curEnd s hlive hpos hcap
      have hrun := runAux_reaches_horizon curEnd (ne_of_gt hpos)
        (queueMeasure curEnd s.eventQueue + 1) { s with running := true }
        hlive rfl (Nat.lt_succ_self _)
      have hclk : ((runSim tshdHandler (queueMeasure curEnd s.eventQueue + 1)
          (some curEnd) s).1).clock = curEnd := hrun.2.1
      have hlive2 : FleetLive ((runSim tshdHandler
          (queueMeasure curEnd s.eventQueue + 1) (some curEnd) s).1) :=
        hrun.2.2
      rw [driverAux_succ]
      by_cases hc : target ≤ fleetTotalDredged ((runSim tshdHandler
          (queueMeasure curEnd s.eventQueue + 1) (some curEnd) s).1) ∨
          (24 * 365 : ℚ) ≤ ((runSim tshdHandler
            (queueMeasure curEnd s.eventQueue + 1) (some curEnd) s).1).clock
      · rw [if_pos hc]
        exact ⟨_, rfl, hc⟩
      · rw [if_neg hc]
        refine ih (curEnd + step) _ hlive2 (by linarith) ?_
        push_cast at hcap ⊢
        linarith

/-- **C7.** (Amended: for every *nonempty* fleet.) The campaign driver
terminates — 35040 rounds always suffice — and the state it returns
satisfies the stop condition: the fleet total reached the target volume or
the clock reached the one-simulated-year cap `24 * 365`; each round
extends the horizon by exactly `stepH fleet`, which is at least a quarter
hour. -/
theorem c7_driver_terminates (fleet : List (String × TSHDConfig))
    (target : ℚ) (rng : List ℚ) (hne : fleet ≠ []) :
    ∃ s2, runSimulationStreamlit 35040 fleet target rng = some s2 ∧
      (target ≤ fleetTotalDredged s2 ∨ (24 * 365 : ℚ) ≤ s2.clock) ∧
      (1/4 : ℚ) ≤ stepH fleet := by
  have hstep : (1/4 : ℚ) ≤ stepH fleet := le_max_left _ _
  have hstep0 : (0 : ℚ) < stepH fleet := lt_of_lt_of_le (by norm_num) hstep
  obtain ⟨s2, hs2, hcond⟩ := driverAux_terminates target (stepH fleet) hstep0
    35039 (stepH fleet) (initFleetSim fleet rng)
    (initFleetSim_live fleet rng hne) hstep0
    (by push_cast; linarith)
  refine ⟨s2, ?_, hcond, hstep⟩
  rw [runSimulationStreamlit, show (35040 : ℕ) = 35039 + 1 from rfl]
  exact hs2

/-- Witness for C7 at a one-vessel fleet with default configuration. -/
theorem c7_witness :
    ([(("A" : String), ({} : TSHDConfig))] ≠
      ([] : List (String × TSHDConfig))) ∧
    ∃ s2, runSimulationStreamlit 35040 [("A", {})] 0 [] = some s2 ∧
      ((0 : ℚ) ≤ fleetTotalDredged s2 ∨ (24 * 365 : ℚ) ≤ s2.clock) ∧
      (1/4 : ℚ) ≤ stepH [("A", {})] :=
  ⟨by simp, c7_driver_terminates [("A", {})] 0 [] (by simp)⟩

/-- The original C7 quantifies over *every* fleet: with an empty fleet and
target 1 the event queue is empty, no volume is ever dredged, the clock
stays at 0, and the `while True:` driver loop never stops. -/
def emptyFleetDriverDiverges : Prop :=
  ∀ rounds : ℕ, runSimulationStreamlit rounds [] 1 [] = none

theorem driverAux_empty (step : ℚ) :
    ∀ (n : ℕ) (curEnd : ℚ) (s : SimState TSHD Shared),
      s.eventQueue = [] → s.entities = [] → s.clock = 0 →
      driverAux 1 step n curEnd s = none := by
  intro n
  induction n with
  | zero =>
      intro curEnd s hq hent hclk
      rfl
  | succ n ih =>
      intro curEnd s hq hent hclk
      obtain ⟨clk, q, ents, st, run, shr⟩ := s
      simp only at hq hent hclk
      subst hq
      subst hent
      subst hclk
      rw [driverAux_succ]
      dsimp only
      have hs2 : (runSim tshdHandler (queueMeasure curEnd ([] : List Event) + 1)
          (some curEnd) (⟨0, [], [], st, run, shr⟩ : SimState TSHD Shared)).1 =
          (⟨0, [], [], st, false, shr⟩ : SimState TSHD Shared) := rfl
      rw [hs2, if_neg (by
        rw [fleetTotalDredged]
        norm_num)]
      exact ih (curEnd + step) _ rfl rfl rfl

/-- Counterexample to C7 as stated: for the empty fleet and target volume 1
the driver never returns, at any round count. -/
theorem c7_counterexample_empty_fleet : emptyFleetDriverDiverges := by
  intro rounds
  rw [runSimulationStreamlit]
  exact driverAux_empty (stepH []) rounds (stepH []) (initFleetSim [] [])
    rfl rfl rfl

end TSHDSim
